import Mathlib

/-!
Verification of matriz_rgb.c: digit display on a 5x5 WS2812 matrix with two debounced buttons

Shallow embedding of `src/matriz_rgb.c`.

Conventions of the embedding.

* The C globals (`current_digit`, `display_update`, the two debounce
  timestamps, `leds`) and the two locals of `main` that survive a loop
  iteration (`last_blink_time`, `led_state`) are the fields of `State`.
  Two ghost fields record what the program hands to the hardware: `pio_tx`
  (the words given to `pio_sm_put_blocking`, oldest first) and `gpio_out`
  (the `gpio_put` calls, oldest first).
* `time_us_64()` is an input: every function that reads the clock takes the
  value read as the argument `now`.
* `uint64_t` subtraction wraps modulo `2^64` (`u64_sub`); the conversion of an
  `int` argument to a `uint` parameter is taken modulo `2^32` (`int_to_uint`).
* `int` arithmetic is arithmetic on `Int`, with `Int.tmod` for the C
  remainder `%` (truncated towards zero).  C leaves signed overflow
  undefined, so the embedding is exact wherever the C program has a defined
  result.
* `sleep_us` and `sleep_ms` change no program variable and are not modelled.
-/

namespace MatrizRgb

/-! ## Constants (`#define`s of the source) -/

def LED_MATRIX_PIN : Nat := 7
def LED_RED_PIN : Nat := 13
def BUTTON_A_PIN : Nat := 5
def BUTTON_B_PIN : Nat := 6
def NUM_LEDS : Nat := 25
def DEBOUNCE_US : Nat := 100000
def BLINK_INTERVAL_US : Nat := 100000

/-! ## Machine arithmetic -/

/-- Subtraction of two `uint64_t` values: the result wraps modulo `2^64`. -/
def u64_sub (a b : Nat) : Nat :=
  (a % 18446744073709551616 + 18446744073709551616 - b % 18446744073709551616)
    % 18446744073709551616

/-- Conversion of an `int` value to `uint` (32 bits): reduction modulo `2^32`. -/
def int_to_uint (i : Int) : Nat := (i % 4294967296).toNat

/-! ## Data -/

/-- One pixel of the strip, `typedef struct { uint8_t G, R, B; } pixel_t`. -/
structure pixel_t where
  G : Nat
  R : Nat
  B : Nat
deriving DecidableEq

/-- Program state: the globals of the source, the loop-carried locals of
`main`, and the two output traces. -/
structure State where
  current_digit : Int
  display_update : Bool
  last_button_a_time : Nat
  last_button_b_time : Nat
  leds : List pixel_t
  pio_tx : List Nat
  last_blink_time : Nat
  led_state : Bool
  gpio_out : List (Nat × Bool)
deriving DecidableEq

/-! ## WS2812 buffer functions -/

/-- Buffer part of `npInit`: every entry of `leds` is zeroed (the PIO set-up
has no effect on the program variables). -/
def npInit (s : State) : State :=
  (List.range NUM_LEDS).foldl
    (fun (st : State) (i : Nat) =>
      { st with leds := st.leds.set i { G := 0, R := 0, B := 0 } }) s

/-- `npSetLED(index, r, g, b)`: writes entry `index` when `index < NUM_LEDS`. -/
def npSetLED (s : State) (index r g b : Nat) : State :=
  if index < NUM_LEDS then
    { s with leds := s.leds.set index { G := g, R := r, B := b } }
  else s

/-- `npClear()`: `npSetLED(i, 0, 0, 0)` for `i = 0 .. NUM_LEDS - 1`. -/
def npClear (s : State) : State :=
  (List.range NUM_LEDS).foldl
    (fun (st : State) (i : Nat) => npSetLED st (int_to_uint (Int.ofNat i)) 0 0 0) s

/-- Entry `i` of the `leds` array. -/
def led_at (s : State) (i : Nat) : pixel_t :=
  s.leds.getD i { G := 0, R := 0, B := 0 }

/-- `npWrite()`: for `i = 0 .. NUM_LEDS - 1` puts `leds[i].G`, `leds[i].R`,
`leds[i].B` to the PIO state machine, in that order. -/
def npWrite (s : State) : State :=
  (List.range NUM_LEDS).foldl
    (fun (st : State) (i : Nat) =>
      { st with pio_tx := st.pio_tx ++ [(led_at st i).G, (led_at st i).R, (led_at st i).B] })
    s

/-- `getIndex(x, y)`: position of cell `(x, y)` on the zig-zag wired strip. -/
def getIndex (x y : Int) : Int :=
  if Int.tmod y 2 = 0 then
    24 - (y * 5 + x)
  else
    24 - (y * 5 + (4 - x))

/-! ## Digit font and rendering -/

/-- The table `digit_patterns[10][5][5]`. -/
def digit_patterns : List (List (List Int)) :=
  [ -- 0
    [[1, 1, 1, 1, 1],
     [1, 0, 0, 0, 1],
     [1, 0, 0, 0, 1],
     [1, 0, 0, 0, 1],
     [1, 1, 1, 1, 1]],
    -- 1
    [[0, 0, 1, 0, 0],
     [0, 1, 1, 0, 0],
     [1, 0, 1, 0, 0],
     [0, 0, 1, 0, 0],
     [1, 1, 1, 1, 1]],
    -- 2
    [[1, 1, 1, 1, 1],
     [0, 0, 0, 0, 1],
     [1, 1, 1, 1, 1],
     [1, 0, 0, 0, 0],
     [1, 1, 1, 1, 1]],
    -- 3
    [[1, 1, 1, 1, 1],
     [0, 0, 0, 0, 1],
     [0, 1, 1, 1, 1],
     [0, 0, 0, 0, 1],
     [1, 1, 1, 1, 1]],
    -- 4
    [[1, 0, 0, 1, 0],
     [1, 0, 0, 1, 0],
     [1, 1, 1, 1, 1],
     [0, 0, 0, 1, 0],
     [0, 0, 0, 1, 0]],
    -- 5
    [[1, 1, 1, 1, 1],
     [1, 0, 0, 0, 0],
     [1, 1, 1, 1, 1],
     [0, 0, 0, 0, 1],
     [1, 1, 1, 1, 1]],
    -- 6
    [[1, 1, 1, 1, 1],
     [1, 0, 0, 0, 0],
     [1, 1, 1, 1, 1],
     [1, 0, 0, 0, 1],
     [1, 1, 1, 1, 1]],
    -- 7
    [[1, 1, 1, 1, 1],
     [0, 0, 0, 0, 1],
     [0, 0, 0, 1, 0],
     [0, 0, 1, 0, 0],
     [0, 1, 0, 0, 0]],
    -- 8
    [[1, 1, 1, 1, 1],
     [1, 0, 0, 0, 1],
     [1, 1, 1, 1, 1],
     [1, 0, 0, 0, 1],
     [1, 1, 1, 1, 1]],
    -- 9
    [[1, 1, 1, 1, 1],
     [1, 0, 0, 0, 1],
     [1, 1, 1, 1, 1],
     [0, 0, 0, 0, 1],
     [1, 1, 1, 1, 1]] ]

/-- The array read `digit_patterns[digit][y][x]`. -/
def pattern_at (digit y x : Nat) : Int :=
  ((digit_patterns.getD digit []).getD y []).getD x 0

/-- The two nested `for` loops of `draw_digit`: rows `y = 0 .. 4`, and in each
row columns `x = 0 .. 4`; a cell whose pattern entry is 1 is set to white. -/
def draw_cells (s : State) (digit : Nat) : State :=
  (List.range 5).foldl
    (fun (st : State) (y : Nat) =>
      (List.range 5).foldl
        (fun (st2 : State) (x : Nat) =>
          if pattern_at digit y x = 1 then
            npSetLED st2 (int_to_uint (getIndex (Int.ofNat x) (Int.ofNat y))) 255 255 255
          else st2)
        st)
    s

/-- `draw_digit(digit)`: returns at once when `digit` is outside 0..9;
otherwise clears the buffer, sets the cells of the pattern and transmits. -/
def draw_digit (s : State) (digit : Int) : State :=
  if digit < 0 ∨ digit > 9 then s
  else npWrite (draw_cells (npClear s) digit.toNat)

/-! ## Button interrupt routine -/

/-- `gpio_callback(gpio, events)`, with `now` the value of `time_us_64()`
read on entry. -/
def gpio_callback (s : State) (gpio _events now : Nat) : State :=
  if gpio = BUTTON_A_PIN then
    if u64_sub now s.last_button_a_time < DEBOUNCE_US then s
    else
      { s with
        last_button_a_time := now
        current_digit := Int.tmod (s.current_digit + 1) 10
        display_update := true }
  else if gpio = BUTTON_B_PIN then
    if u64_sub now s.last_button_b_time < DEBOUNCE_US then s
    else
      { s with
        last_button_b_time := now
        current_digit := Int.tmod (s.current_digit + 9) 10
        display_update := true }
  else s

/-! ## `main` -/

/-- The variables as the C initialisers leave them before `main` runs:
`current_digit = 0`, `display_update = true`, both timestamps 0, and the
statically allocated `leds` zero-filled. -/
def boot : State :=
  { current_digit := 0
    display_update := true
    last_button_a_time := 0
    last_button_b_time := 0
    leds := List.replicate NUM_LEDS { G := 0, R := 0, B := 0 }
    pio_tx := []
    last_blink_time := 0
    led_state := false
    gpio_out := [] }

/-- The part of `main` before the `while` loop: strip initialisation
(`npInit`, `npClear`, `npWrite`), the red LED driven low, the blink variables
(`last_blink_time = time_us_64()`, here `now`; `led_state = false`), then
`draw_digit(current_digit)` and `display_update = false`. -/
def main_setup (s : State) (now : Nat) : State :=
  let s1 := npWrite (npClear (npInit s))
  let s2 := { s1 with gpio_out := s1.gpio_out ++ [(LED_RED_PIN, false)] }
  let s3 := { s2 with last_blink_time := now, led_state := false }
  let s4 := draw_digit s3 s3.current_digit
  { s4 with display_update := false }

/-- The redraw part of a loop iteration:
`if (display_update) { draw_digit(current_digit); display_update = false; }`. -/
def loop_redraw (s : State) : State :=
  if s.display_update then
    { draw_digit s s.current_digit with display_update := false }
  else s

/-- The blink part of a loop iteration, with `now` the value of
`time_us_64()` read in this iteration. -/
def blink_tick (s : State) (now : Nat) : State :=
  if u64_sub now s.last_blink_time ≥ BLINK_INTERVAL_US then
    { s with
      led_state := !s.led_state
      gpio_out := s.gpio_out ++ [(LED_RED_PIN, !s.led_state)]
      last_blink_time := now }
  else s

/-- One iteration of the `while (true)` loop of `main`. -/
def main_loop_body (s : State) (now : Nat) : State :=
  blink_tick (loop_redraw s) now

/-! ## Specification-side vocabulary -/

/-- Full white, `(R, G, B) = (255, 255, 255)`. -/
def white : pixel_t := { G := 255, R := 255, B := 255 }

/-- Off, `(R, G, B) = (0, 0, 0)`. -/
def black : pixel_t := { G := 0, R := 0, B := 0 }

/-- The buffer `leds` shows digit `n`: it has `NUM_LEDS` entries and, for every
cell `(x, y)` of the 5x5 grid, the entry at `getIndex(x, y)` is white when
`digit_patterns[n][y][x]` is 1 and black otherwise. -/
def shows_digit (leds : List pixel_t) (n : Nat) : Prop :=
  leds.length = NUM_LEDS ∧
  ∀ x y : Fin 5,
    leds[int_to_uint (getIndex (Int.ofNat x) (Int.ofNat y))]? =
      some (if pattern_at n y x = 1 then white else black)

instance (leds : List pixel_t) (n : Nat) : Decidable (shows_digit leds n) := by
  unfold shows_digit
  infer_instance

/-- The debounce timestamp that belongs to the button on pin `gpio`:
`last_button_a_time` for button A, `last_button_b_time` for button B. -/
def last_accepted (s : State) (gpio : Nat) : Nat :=
  if gpio = BUTTON_A_PIN then s.last_button_a_time else s.last_button_b_time

/-- A button edge delivered to `gpio_callback`: the pin, the event mask, and
the clock value the routine reads. -/
structure ButtonEvent where
  gpio : Nat
  events : Nat
  now : Nat
deriving DecidableEq

/-- The interrupt routine run on one event. -/
def handle (s : State) (e : ButtonEvent) : State :=
  gpio_callback s e.gpio e.events e.now

/-- The value of `current_digit` after each event of a sequence, the events
being handled in order. -/
def digits_after (s : State) : List ButtonEvent → List Int
  | [] => []
  | e :: es => (handle s e).current_digit :: digits_after (handle s e) es

/-- Every event is on button A or button B, has a clock value below `2^64`,
and comes at least `DEBOUNCE_US` after the previous one; the first comes at
least `DEBOUNCE_US` after `t0`. -/
def spaced (t0 : Nat) : List ButtonEvent → Prop
  | [] => True
  | e :: es =>
    (e.gpio = BUTTON_A_PIN ∨ e.gpio = BUTTON_B_PIN) ∧
    t0 + DEBOUNCE_US ≤ e.now ∧ e.now < 18446744073709551616 ∧ spaced e.now es

instance spaced_decidable : (t0 : Nat) → (es : List ButtonEvent) → Decidable (spaced t0 es)
  | _, [] => isTrue trivial
  | t0, e :: es =>
    have : Decidable (spaced e.now es) := spaced_decidable e.now es
    inferInstanceAs (Decidable
      ((e.gpio = BUTTON_A_PIN ∨ e.gpio = BUTTON_B_PIN) ∧
        t0 + DEBOUNCE_US ≤ e.now ∧ e.now < 18446744073709551616 ∧ spaced e.now es))

/-- The digit the specification prescribes after an accepted press:
`(d + 1) mod 10` for the increment button, `(d + 9) mod 10` for the decrement
button. -/
def next_digit (gpio : Nat) (d : Int) : Int :=
  if gpio = BUTTON_A_PIN then (d + 1) % 10 else (d + 9) % 10

/-- The digits the specification prescribes after each press of a sequence in
which every press is accepted. -/
def expected_digits (d : Int) : List ButtonEvent → List Int
  | [] => []
  | e :: es => next_digit e.gpio d :: expected_digits (next_digit e.gpio d) es

/-- The state after `main` has run up to the loop (clock value 1000 at the
blink set-up) and one press of button A has been accepted at 200 ms. -/
def after_one_press : State :=
  gpio_callback (main_setup boot 1000) BUTTON_A_PIN 4 200000

/-- Ten presses of button A at 50 ms, 150 ms, ..., 950 ms after boot. -/
def ten_early_presses : List ButtonEvent :=
  (List.range 10).map (fun (i : Nat) =>
    { gpio := BUTTON_A_PIN, events := 4, now := 50000 + i * 100000 })

/-- Ten presses of button A at 100 ms, 200 ms, ..., 1000 ms after boot. -/
def ten_presses : List ButtonEvent :=
  (List.range 10).map (fun (i : Nat) =>
    { gpio := BUTTON_A_PIN, events := 4, now := (i + 1) * 100000 })

/-! ## The main loop as a step system -/

/-- Where the main loop stands: at the top of an iteration, after
`draw_digit(current_digit)` and before `display_update = false`, or before the
blink part. -/
inductive Pc where
  | top
  | drawn
  | blink
deriving DecidableEq

/-- A state of the program together with the position of the main loop. -/
structure Config where
  st : State
  pc : Pc
deriving DecidableEq

/-- The steps of the running program: a button edge handled by
`gpio_callback`; the main loop reading `display_update` and, when it is set,
calling `draw_digit(current_digit)`; the main loop executing
`display_update = false`; the main loop running the blink part with clock
value `now`. -/
inductive Action where
  | button (e : ButtonEvent)
  | redraw
  | clear
  | blink (now : Nat)
deriving DecidableEq

/-- One step.  A button edge is handled wherever the main loop stands; a
main-loop step is taken only at its own position, and leaves the
configuration as it is elsewhere. -/
def step (c : Config) : Action → Config
  | Action.button e => { c with st := handle c.st e }
  | Action.redraw =>
    if c.pc = Pc.top then
      if c.st.display_update then
        { st := draw_digit c.st c.st.current_digit, pc := Pc.drawn }
      else { c with pc := Pc.blink }
    else c
  | Action.clear =>
    if c.pc = Pc.drawn then
      { st := { c.st with display_update := false }, pc := Pc.blink }
    else c
  | Action.blink now =>
    if c.pc = Pc.blink then { st := blink_tick c.st now, pc := Pc.top } else c

/-- A sequence of steps. -/
def run (c : Config) (as : List Action) : Config :=
  as.foldl step c

/-- The program when `main` enters the loop, `t0` being the clock value read
for `last_blink_time`. -/
def startup (t0 : Nat) : Config :=
  { st := main_setup boot t0, pc := Pc.top }

/-- A run from startup: button A is accepted at 200 ms, the main loop redraws
(digit 1), button B is accepted 0.9 ms later, before the main loop clears the
flag, and the iteration is completed. -/
def lost_update_run : List Action :=
  [ Action.button { gpio := BUTTON_A_PIN, events := 4, now := 200000 },
    Action.redraw,
    Action.button { gpio := BUTTON_B_PIN, events := 4, now := 200900 },
    Action.clear,
    Action.blink 201000 ]

/-! ## Blink runs -/

/-- The clock values at which the indicator level changes during a run: the
`now` of every blink step after which `led_state` differs from before. -/
def toggles (c : Config) : List Action → List Nat
  | [] => []
  | Action.blink now :: as =>
    if (step c (Action.blink now)).st.led_state = c.st.led_state then
      toggles (step c (Action.blink now)) as
    else now :: toggles (step c (Action.blink now)) as
  | a :: as => toggles (step c a) as

/-- The clock values of the blink steps of a run do not decrease, starting
from `t0`, and are below `2^64`. -/
def ticks_sorted (t0 : Nat) : List Action → Prop
  | [] => True
  | Action.blink now :: as =>
    t0 ≤ now ∧ now < 18446744073709551616 ∧ ticks_sorted now as
  | _ :: as => ticks_sorted t0 as

instance ticks_sorted_decidable :
    (t0 : Nat) → (as : List Action) → Decidable (ticks_sorted t0 as)
  | _, [] => isTrue trivial
  | t0, Action.blink now :: as =>
    have : Decidable (ticks_sorted now as) := ticks_sorted_decidable now as
    inferInstanceAs (Decidable
      (t0 ≤ now ∧ now < 18446744073709551616 ∧ ticks_sorted now as))
  | t0, Action.button _ :: as => ticks_sorted_decidable t0 as
  | t0, Action.redraw :: as => ticks_sorted_decidable t0 as
  | t0, Action.clear :: as => ticks_sorted_decidable t0 as

/-- The clock value of the last blink step of a run, `t0` when there is none. -/
def end_time (t0 : Nat) : List Action → Nat
  | [] => t0
  | Action.blink now :: as => end_time now as
  | _ :: as => end_time t0 as

/-- One iteration of the main loop with the button edges that arrive during
it: before the redraw, between the redraw and the clearing of the flag, and
between that and the blink part, which reads the clock value `now`. -/
structure Tick where
  before : List ButtonEvent
  between : List ButtonEvent
  after : List ButtonEvent
  now : Nat

/-- The steps of one iteration. -/
def iteration (tk : Tick) : List Action :=
  tk.before.map Action.button ++ [Action.redraw] ++ tk.between.map Action.button
    ++ [Action.clear] ++ tk.after.map Action.button ++ [Action.blink tk.now]

/-- The steps of consecutive iterations. -/
def iterations : List Tick → List Action
  | [] => []
  | tk :: tks => iteration tk ++ iterations tks

/-- Every iteration reads the clock exactly 10 ms (the `sleep_ms(10)` slice)
after the previous one, the first 10 ms after `t0`. -/
def every_slice (t0 : Nat) : List Tick → Prop
  | [] => True
  | tk :: tks => tk.now = t0 + 10000 ∧ every_slice tk.now tks

/-- Nineteen iterations without button edges, 11 ms apart, the first 11 ms
after clock value 1000. -/
def slow_ticks : List Action :=
  iterations ((List.range 19).map (fun (k : Nat) =>
    { before := [], between := [], after := [], now := 1000 + 11000 * (k + 1) }))

/-- The steps of one iteration before its blink step. -/
def iteration_head (tk : Tick) : List Action :=
  tk.before.map Action.button ++ [Action.redraw] ++ tk.between.map Action.button
    ++ [Action.clear] ++ tk.after.map Action.button

instance every_slice_decidable :
    (t0 : Nat) → (tks : List Tick) → Decidable (every_slice t0 tks)
  | _, [] => isTrue trivial
  | t0, tk :: tks =>
    have : Decidable (every_slice tk.now tks) := every_slice_decidable tk.now tks
    inferInstanceAs (Decidable (tk.now = t0 + 10000 ∧ every_slice tk.now tks))

/-- Twenty iterations exactly 10 ms apart, the first 10 ms after clock value
1000, with a press of button A before the thirteenth and a press of button B
during the redraw that follows. -/
def regular_ticks : List Tick :=
  (List.range 20).map (fun (k : Nat) =>
    { before :=
        if k = 12 then [{ gpio := BUTTON_A_PIN, events := 4, now := 1000 + 10000 * k + 5000 }]
        else []
      between :=
        if k = 12 then [{ gpio := BUTTON_B_PIN, events := 4, now := 1000 + 10000 * k + 9500 }]
        else []
      after := []
      now := 1000 + 10000 * (k + 1) })

/-! ## Auxiliary lemmas: arithmetic -/

theorem int_to_uint_ofNat (k : Nat) (h : k < 4294967296) : int_to_uint (Int.ofNat k) = k := by
  unfold int_to_uint
  simp only [Int.ofNat_eq_coe]
  omega

/-- With a clock that has not wrapped, `u64_sub` is the ordinary difference. -/
theorem u64_sub_of_le (a b : Nat) (hab : b ≤ a) (ha : a < 18446744073709551616) :
    u64_sub a b = a - b := by
  unfold u64_sub
  omega

/-! ## Auxiliary lemmas: which fields a function writes -/

theorem foldl_leds_only {α : Type} (f : State → α → State)
    (hf : ∀ st a, f st a = { st with leds := (f st a).leds }) (l : List α) (s : State) :
    l.foldl f s = { s with leds := (l.foldl f s).leds } := by
  induction l generalizing s with
  | nil => rfl
  | cons a l ih =>
    rw [List.foldl_cons, ih (f s a)]
    generalize (List.foldl f (f s a) l).leds = z
    rw [hf s a]

theorem foldl_pio_only {α : Type} (f : State → α → State)
    (hf : ∀ st a, f st a = { st with pio_tx := (f st a).pio_tx }) (l : List α) (s : State) :
    l.foldl f s = { s with pio_tx := (l.foldl f s).pio_tx } := by
  induction l generalizing s with
  | nil => rfl
  | cons a l ih =>
    rw [List.foldl_cons, ih (f s a)]
    generalize (List.foldl f (f s a) l).pio_tx = z
    rw [hf s a]

theorem npSetLED_leds_only (s : State) (i r g b : Nat) :
    npSetLED s i r g b = { s with leds := (npSetLED s i r g b).leds } := by
  unfold npSetLED
  split <;> rfl

theorem npSetLED_leds (s : State) (i r g b : Nat) (h : i < NUM_LEDS) :
    (npSetLED s i r g b).leds = s.leds.set i { G := g, R := r, B := b } := by
  simp [npSetLED, h]

theorem npClear_leds_only (s : State) : npClear s = { s with leds := (npClear s).leds } :=
  foldl_leds_only _ (fun st _ => npSetLED_leds_only st _ 0 0 0) _ s

theorem npWrite_pio_only (s : State) : npWrite s = { s with pio_tx := (npWrite s).pio_tx } :=
  foldl_pio_only _ (fun _ _ => rfl) _ s

theorem draw_cells_leds_only (s : State) (n : Nat) :
    draw_cells s n = { s with leds := (draw_cells s n).leds } := by
  unfold draw_cells
  refine foldl_leds_only _ (fun st y => foldl_leds_only _ (fun st2 x => ?_) _ st) _ s
  split
  · exact npSetLED_leds_only st2 _ 255 255 255
  · rfl

/-! ## Auxiliary lemmas: the buffer after `npClear` and `draw_digit` -/

theorem set_replicate_append_drop (l : List pixel_t) (k : Nat) (b : pixel_t) (h : k < l.length) :
    (List.replicate k b ++ l.drop k).set k b = List.replicate (k + 1) b ++ l.drop (k + 1) := by
  rw [List.set_append_right _ _ (by simp)]
  simp only [List.length_replicate, Nat.sub_self]
  rw [List.drop_eq_getElem_cons h, List.set_cons_zero, List.replicate_succ', List.append_assoc]
  rfl

theorem npClear_loop_leds (s : State) (k : Nat) (hk : k ≤ NUM_LEDS) (hl : k ≤ s.leds.length) :
    ((List.range k).foldl
      (fun (st : State) (i : Nat) => npSetLED st (int_to_uint (Int.ofNat i)) 0 0 0) s).leds
      = List.replicate k black ++ s.leds.drop k := by
  induction k with
  | zero => simp
  | succ k ih =>
    have hk2 : k < NUM_LEDS := hk
    have hk3 : k < 4294967296 := by unfold NUM_LEDS at hk2; omega
    rw [List.range_succ, List.foldl_append, List.foldl_cons, List.foldl_nil,
      int_to_uint_ofNat k hk3, npSetLED_leds _ _ _ _ _ hk2, ih (by omega) (by omega)]
    exact set_replicate_append_drop s.leds k _ hl

theorem npClear_leds (s : State) (h : s.leds.length = NUM_LEDS) :
    (npClear s).leds = List.replicate NUM_LEDS black := by
  unfold npClear
  rw [npClear_loop_leds s NUM_LEDS (le_refl _) (by omega), List.drop_of_length_le (by omega)]
  simp

theorem draw_cells_cleared (s : State) (n : Nat) (hn : n ≤ 9) :
    (draw_cells { s with leds := List.replicate NUM_LEDS black } n).leds
      = (draw_cells (npClear boot) n).leds := by
  interval_cases n <;> rfl

theorem draw_digit_leds (s : State) (n : Nat) (hn : n ≤ 9) (h : s.leds.length = NUM_LEDS) :
    (draw_digit s (Int.ofNat n)).leds = (draw_cells (npClear boot) n).leds := by
  have h1 : ¬ (Int.ofNat n < 0 ∨ Int.ofNat n > 9) := by
    simp only [Int.ofNat_eq_coe]; omega
  unfold draw_digit
  rw [if_neg h1, npWrite_pio_only, npClear_leds_only, npClear_leds s h]
  exact draw_cells_cleared s n hn

theorem draw_digit_fields (s : State) (n : Int) :
    draw_digit s n = { s with leds := (draw_digit s n).leds, pio_tx := (draw_digit s n).pio_tx } := by
  unfold draw_digit
  split
  · rfl
  · rw [npWrite_pio_only, draw_cells_leds_only, npClear_leds_only]

/-! ## Rendering a digit -/

/-- C1: for a digit `n` in 0..9 and any prior content of the 25-entry buffer,
after `draw_digit(n)` the entry at `getIndex(x, y)` is white when
`digit_patterns[n][y][x] == 1` and black otherwise, for every cell `(x, y)` of
the grid; the buffer still has 25 entries, each of them white or black, and it
is the same whatever the buffer held before. -/
theorem draw_digit_renders (s : State) (n : Int) (h0 : 0 ≤ n) (h9 : n ≤ 9)
    (hlen : s.leds.length = NUM_LEDS) :
    (∀ x y : Fin 5,
      (draw_digit s n).leds[int_to_uint (getIndex (Int.ofNat x) (Int.ofNat y))]? =
        some (if pattern_at n.toNat y x = 1 then { G := 255, R := 255, B := 255 }
              else { G := 0, R := 0, B := 0 })) ∧
    (draw_digit s n).leds.length = NUM_LEDS ∧
    (∀ p ∈ (draw_digit s n).leds,
      p = { G := 255, R := 255, B := 255 } ∨ p = { G := 0, R := 0, B := 0 }) ∧
    (∀ s2 : State, s2.leds.length = NUM_LEDS →
      (draw_digit s2 n).leds = (draw_digit s n).leds) := by
  obtain ⟨k, rfl⟩ := Int.eq_ofNat_of_zero_le h0
  have hk : k ≤ 9 := by omega
  refine ⟨?_, ?_, ?_, ?_⟩
  · rw [show ((k : Int)) = Int.ofNat k from rfl, draw_digit_leds s k hk hlen]
    interval_cases k <;> decide
  · rw [show ((k : Int)) = Int.ofNat k from rfl, draw_digit_leds s k hk hlen]
    interval_cases k <;> decide
  · rw [show ((k : Int)) = Int.ofNat k from rfl, draw_digit_leds s k hk hlen]
    interval_cases k <;> decide
  · intro s2 h2
    rw [show ((k : Int)) = Int.ofNat k from rfl, draw_digit_leds s k hk hlen,
      draw_digit_leds s2 k hk h2]

theorem draw_digit_renders_witness :
    (∀ x y : Fin 5,
      (draw_digit boot 7).leds[int_to_uint (getIndex (Int.ofNat x) (Int.ofNat y))]? =
        some (if pattern_at (7 : Int).toNat y x = 1 then { G := 255, R := 255, B := 255 }
              else { G := 0, R := 0, B := 0 })) ∧
    (draw_digit boot 7).leds.length = NUM_LEDS ∧
    (∀ p ∈ (draw_digit boot 7).leds,
      p = { G := 255, R := 255, B := 255 } ∨ p = { G := 0, R := 0, B := 0 }) ∧
    (∀ s2 : State, s2.leds.length = NUM_LEDS →
      (draw_digit s2 7).leds = (draw_digit boot 7).leds) :=
  draw_digit_renders boot 7 (by decide) (by decide) (by decide)

/-- C2: on the grid `x, y ∈ 0..4`, `getIndex` is a bijection onto 0..24: every
value lies in 0..24, different cells have different indices, and every index
of 0..24 is the image of exactly one cell. -/
theorem getIndex_bijection :
    (∀ x y : Fin 5, 0 ≤ getIndex (Int.ofNat x) (Int.ofNat y) ∧
      getIndex (Int.ofNat x) (Int.ofNat y) ≤ 24) ∧
    (∀ x y x2 y2 : Fin 5,
      getIndex (Int.ofNat x) (Int.ofNat y) = getIndex (Int.ofNat x2) (Int.ofNat y2) →
        x = x2 ∧ y = y2) ∧
    (∀ i : Fin 25, ∃ p : Fin 5 × Fin 5,
      getIndex (Int.ofNat p.1) (Int.ofNat p.2) = Int.ofNat i ∧
      ∀ q : Fin 5 × Fin 5, getIndex (Int.ofNat q.1) (Int.ofNat q.2) = Int.ofNat i → q = p) := by
  refine ⟨by decide, by decide, by decide⟩

/-! ## The button interrupt routine -/

theorem tmod_ten_of_nonneg (d k : Int) (hd : 0 ≤ d) (hk : 0 ≤ k) :
    Int.tmod (d + k) 10 = (d + k) % 10 :=
  Int.tmod_eq_emod (by omega) (by decide)

/-- An event changes the state exactly when it is on one of the two buttons
and at least `DEBOUNCE_US` after that button's timestamp. -/
theorem gpio_callback_changes_iff (s : State) (gpio events now : Nat) :
    gpio_callback s gpio events now ≠ s ↔
      (gpio = BUTTON_A_PIN ∨ gpio = BUTTON_B_PIN) ∧
        DEBOUNCE_US ≤ u64_sub now (last_accepted s gpio) := by
  unfold gpio_callback last_accepted
  by_cases hA : gpio = BUTTON_A_PIN
  · simp only [hA, if_true, true_or, true_and]
    by_cases h : u64_sub now s.last_button_a_time < DEBOUNCE_US
    · simp only [h, if_true]
      constructor
      · intro hne
        exact absurd rfl hne
      · intro hle
        omega
    · simp only [h, if_false]
      constructor
      · intro _
        omega
      · intro _ heq
        have h1 := congrArg State.last_button_a_time heq
        simp only at h1
        rw [h1] at h
        unfold u64_sub DEBOUNCE_US at h
        omega
  · by_cases hB : gpio = BUTTON_B_PIN
    · have hne : ¬ (BUTTON_B_PIN = BUTTON_A_PIN) := by decide
      simp only [hB, hne, if_true, if_false, or_true, true_and]
      by_cases h : u64_sub now s.last_button_b_time < DEBOUNCE_US
      · simp only [h, if_true]
        constructor
        · intro hne
          exact absurd rfl hne
        · intro hle
          omega
      · simp only [h, if_false]
        constructor
        · intro _
          omega
        · intro _ heq
          have h1 := congrArg State.last_button_b_time heq
          simp only at h1
          rw [h1] at h
          unfold u64_sub DEBOUNCE_US at h
          omega
    · simp [hA, hB]

/-- C3: an event on button A (pin 5) or button B (pin 6) that arrives at least
`DEBOUNCE_US` = 100000 microseconds after that button's timestamp is accepted:
the timestamp becomes `now`, `display_update` becomes true, and
`current_digit` becomes `(old + 1) % 10` for button A and `(old + 9) % 10` for
button B, so that 0 becomes 9 on a decrement.  The remainder is the C one; for
a digit that is not negative it is the mathematical `mod`. -/
theorem gpio_callback_accepts (s : State) (gpio events now : Nat)
    (hg : gpio = BUTTON_A_PIN ∨ gpio = BUTTON_B_PIN)
    (h : DEBOUNCE_US ≤ u64_sub now (last_accepted s gpio)) :
    last_accepted (gpio_callback s gpio events now) gpio = now ∧
    (gpio_callback s gpio events now).display_update = true ∧
    (gpio = BUTTON_A_PIN →
      (gpio_callback s gpio events now).current_digit = Int.tmod (s.current_digit + 1) 10 ∧
      (0 ≤ s.current_digit →
        (gpio_callback s gpio events now).current_digit = (s.current_digit + 1) % 10)) ∧
    (gpio = BUTTON_B_PIN →
      (gpio_callback s gpio events now).current_digit = Int.tmod (s.current_digit + 9) 10 ∧
      (0 ≤ s.current_digit →
        (gpio_callback s gpio events now).current_digit = (s.current_digit + 9) % 10) ∧
      (s.current_digit = 0 → (gpio_callback s gpio events now).current_digit = 9)) := by
  have hne : ¬ (BUTTON_B_PIN = BUTTON_A_PIN) := by decide
  rcases hg with hA | hB
  · subst hA
    have h2 : ¬ (u64_sub now s.last_button_a_time < DEBOUNCE_US) := by
      simp only [last_accepted, if_true] at h
      omega
    have hne2 : ¬ (BUTTON_A_PIN = BUTTON_B_PIN) := by decide
    simp only [gpio_callback, last_accepted, if_true, h2, if_false, true_and, hne2,
      false_implies, and_true, true_implies]
    intro hd
    exact tmod_ten_of_nonneg _ 1 hd (by decide)
  · subst hB
    have h2 : ¬ (u64_sub now s.last_button_b_time < DEBOUNCE_US) := by
      simp only [last_accepted, hne, if_false] at h
      omega
    simp only [gpio_callback, last_accepted, hne, if_true, h2, if_false, true_and,
      false_implies, true_implies]
    refine ⟨?_, ?_⟩
    · intro hd
      exact tmod_ten_of_nonneg _ 9 hd (by decide)
    · intro h0
      rw [h0]
      decide

theorem gpio_callback_accepts_witness :
    last_accepted (gpio_callback boot BUTTON_B_PIN 4 250000) BUTTON_B_PIN = 250000 ∧
    (gpio_callback boot BUTTON_B_PIN 4 250000).display_update = true ∧
    (gpio_callback boot BUTTON_B_PIN 4 250000).current_digit = 9 := by
  have h := gpio_callback_accepts boot BUTTON_B_PIN 4 250000 (Or.inr rfl) (by decide)
  exact ⟨h.1, h.2.1, (h.2.2.2 rfl).2.2 rfl⟩

/-- C4: an event on a button that arrives less than `DEBOUNCE_US` = 100000
microseconds after that button's timestamp changes nothing: the whole state,
and so `current_digit`, `display_update` and both timestamps, is as before. -/
theorem gpio_callback_discards (s : State) (gpio events now : Nat)
    (_hg : gpio = BUTTON_A_PIN ∨ gpio = BUTTON_B_PIN)
    (h : u64_sub now (last_accepted s gpio) < DEBOUNCE_US) :
    gpio_callback s gpio events now = s ∧
    (gpio_callback s gpio events now).current_digit = s.current_digit ∧
    (gpio_callback s gpio events now).display_update = s.display_update ∧
    (gpio_callback s gpio events now).last_button_a_time = s.last_button_a_time ∧
    (gpio_callback s gpio events now).last_button_b_time = s.last_button_b_time := by
  have key : gpio_callback s gpio events now = s := by
    by_contra hne
    have := ((gpio_callback_changes_iff s gpio events now).mp hne).2
    omega
  rw [key]
  exact ⟨rfl, rfl, rfl, rfl, rfl⟩

theorem gpio_callback_discards_witness :
    gpio_callback (gpio_callback boot BUTTON_A_PIN 4 300000) BUTTON_A_PIN 4 350000
      = gpio_callback boot BUTTON_A_PIN 4 300000 :=
  (gpio_callback_discards (gpio_callback boot BUTTON_A_PIN 4 300000) BUTTON_A_PIN 4 350000
    (Or.inl rfl) (by decide)).1

theorem gpio_callback_a (s : State) (events now : Nat)
    (h : DEBOUNCE_US ≤ u64_sub now s.last_button_a_time) :
    gpio_callback s BUTTON_A_PIN events now =
      { s with
        last_button_a_time := now
        current_digit := Int.tmod (s.current_digit + 1) 10
        display_update := true } := by
  have h2 : ¬ (u64_sub now s.last_button_a_time < DEBOUNCE_US) := by omega
  simp only [gpio_callback, if_true, h2, if_false]

theorem gpio_callback_b (s : State) (events now : Nat)
    (h : DEBOUNCE_US ≤ u64_sub now s.last_button_b_time) :
    gpio_callback s BUTTON_B_PIN events now =
      { s with
        last_button_b_time := now
        current_digit := Int.tmod (s.current_digit + 9) 10
        display_update := true } := by
  have h2 : ¬ (u64_sub now s.last_button_b_time < DEBOUNCE_US) := by omega
  have hne : ¬ (BUTTON_B_PIN = BUTTON_A_PIN) := by decide
  simp only [gpio_callback, hne, if_true, h2, if_false]

theorem gpio_callback_same (s : State) (gpio events now : Nat)
    (h : u64_sub now (last_accepted s gpio) < DEBOUNCE_US) :
    gpio_callback s gpio events now = s := by
  by_contra hne
  have := ((gpio_callback_changes_iff s gpio events now).mp hne).2
  omega

/-- C5 (as amended): of two consecutive edges on the same button at times
`t1 ≤ t2` less than `DEBOUNCE_US` apart, when the first is accepted the second
changes nothing, so the digit moves by exactly one step; and in every case at
most one of the two changes the state. -/
theorem two_edges_in_window (s : State) (gpio e1 e2 t1 t2 : Nat)
    (hg : gpio = BUTTON_A_PIN ∨ gpio = BUTTON_B_PIN)
    (h12 : t1 ≤ t2) (hw : t2 - t1 < DEBOUNCE_US) (ht : t2 < 18446744073709551616) :
    (DEBOUNCE_US ≤ u64_sub t1 (last_accepted s gpio) →
      gpio_callback (gpio_callback s gpio e1 t1) gpio e2 t2 = gpio_callback s gpio e1 t1 ∧
      (gpio = BUTTON_A_PIN →
        (gpio_callback (gpio_callback s gpio e1 t1) gpio e2 t2).current_digit
          = Int.tmod (s.current_digit + 1) 10) ∧
      (gpio = BUTTON_B_PIN →
        (gpio_callback (gpio_callback s gpio e1 t1) gpio e2 t2).current_digit
          = Int.tmod (s.current_digit + 9) 10)) ∧
    (gpio_callback s gpio e1 t1 = s ∨
      gpio_callback (gpio_callback s gpio e1 t1) gpio e2 t2 = gpio_callback s gpio e1 t1) := by
  have hsub : u64_sub t2 t1 < DEBOUNCE_US := by
    rw [u64_sub_of_le t2 t1 h12 ht]
    exact hw
  have hne : ¬ (BUTTON_B_PIN = BUTTON_A_PIN) := by decide
  have hne2 : ¬ (BUTTON_A_PIN = BUTTON_B_PIN) := by decide
  have hacc : DEBOUNCE_US ≤ u64_sub t1 (last_accepted s gpio) →
      gpio_callback (gpio_callback s gpio e1 t1) gpio e2 t2 = gpio_callback s gpio e1 t1 ∧
      (gpio = BUTTON_A_PIN →
        (gpio_callback s gpio e1 t1).current_digit = Int.tmod (s.current_digit + 1) 10) ∧
      (gpio = BUTTON_B_PIN →
        (gpio_callback s gpio e1 t1).current_digit = Int.tmod (s.current_digit + 9) 10) := by
    intro h
    rcases hg with hA | hB
    · subst hA
      simp only [last_accepted, if_true] at h
      rw [gpio_callback_a s e1 t1 h]
      refine ⟨gpio_callback_same _ _ _ _ ?_, fun _ => rfl, fun hc => absurd hc hne2⟩
      simpa only [last_accepted, if_true] using hsub
    · subst hB
      simp only [last_accepted, hne, if_false] at h
      rw [gpio_callback_b s e1 t1 h]
      refine ⟨gpio_callback_same _ _ _ _ ?_, fun hc => absurd hc hne, fun _ => rfl⟩
      simpa only [last_accepted, hne, if_false] using hsub
  refine ⟨?_, ?_⟩
  · intro h
    obtain ⟨h1, h2, h3⟩ := hacc h
    rw [h1]
    exact ⟨rfl, h2, h3⟩
  · by_cases h : DEBOUNCE_US ≤ u64_sub t1 (last_accepted s gpio)
    · exact Or.inr (hacc h).1
    · exact Or.inl (gpio_callback_same s gpio e1 t1 (by omega))

theorem two_edges_in_window_witness :
    gpio_callback (gpio_callback boot BUTTON_A_PIN 4 200000) BUTTON_A_PIN 4 250000
      = gpio_callback boot BUTTON_A_PIN 4 200000 ∧
    (gpio_callback (gpio_callback boot BUTTON_A_PIN 4 200000) BUTTON_A_PIN 4 250000).current_digit
      = 1 := by
  have h := (two_edges_in_window boot BUTTON_A_PIN 4 4 200000 250000 (Or.inl rfl)
    (by decide) (by decide) (by decide)).1 (by decide)
  exact ⟨h.1, h.2.1 rfl⟩

/-- C5, counterexample to the claim as stated: after one accepted press of
button A at 200 ms (digit 1), the edges at 260 ms and 310 ms are 50 ms apart,
the first changes nothing and the second increments the digit to 2; and the
edges at 210 ms and 260 ms, also 50 ms apart, leave the digit at 1. -/
theorem two_edges_second_mutates :
    after_one_press.current_digit = 1 ∧
    gpio_callback after_one_press BUTTON_A_PIN 4 260000 = after_one_press ∧
    (gpio_callback (gpio_callback after_one_press BUTTON_A_PIN 4 260000)
      BUTTON_A_PIN 4 310000).current_digit = 2 ∧
    (gpio_callback (gpio_callback after_one_press BUTTON_A_PIN 4 210000)
      BUTTON_A_PIN 4 260000).current_digit = 1 := by
  decide

/-! ## Sequences of presses -/

theorem expected_digits_all_a (d : Int) (es : List ButtonEvent)
    (h : ∀ e ∈ es, e.gpio = BUTTON_A_PIN) :
    expected_digits d es = (List.range es.length).map (fun (i : Nat) => (d + 1 + i) % 10) := by
  induction es generalizing d with
  | nil => rfl
  | cons e es ih =>
    have he : e.gpio = BUTTON_A_PIN := h e (List.mem_cons_self _ _)
    have ht : ∀ x ∈ es, x.gpio = BUTTON_A_PIN := fun x hx => h x (List.mem_cons_of_mem _ hx)
    simp only [expected_digits, next_digit, he, if_true, List.length_cons, List.range_succ_eq_map,
      List.map_cons, List.map_map, ih _ ht]
    refine congrArg₂ _ (by simp) (List.map_congr_left ?_)
    intro i _
    simp only [Function.comp, Nat.succ_eq_add_one, Nat.cast_add, Nat.cast_one]
    omega

/-- C6 (as amended): from a state whose two debounce timestamps are at most
`t0` (at startup both are 0, so `t0` = 0 is boot) and whose digit is not
negative, for every sequence of button events of which the first comes at
least 100 ms after `t0` and each later one at least 100 ms after the previous
one, the digit after each event is `(prev + 1) mod 10` for an increment and
`(prev + 9) mod 10` for a decrement; ten such increments from digit 0 give
1, 2, 3, 4, 5, 6, 7, 8, 9, 0. -/
theorem spaced_events_digits (s : State) (t0 : Nat) (es : List ButtonEvent)
    (hd : 0 ≤ s.current_digit) (ha : s.last_button_a_time ≤ t0)
    (hb : s.last_button_b_time ≤ t0) (hsp : spaced t0 es) :
    digits_after s es = expected_digits s.current_digit es ∧
    (s.current_digit = 0 → es.length = 10 → (∀ e ∈ es, e.gpio = BUTTON_A_PIN) →
      digits_after s es = [1, 2, 3, 4, 5, 6, 7, 8, 9, 0]) := by
  have main : digits_after s es = expected_digits s.current_digit es := by
    induction es generalizing s t0 with
    | nil => rfl
    | cons e es ih =>
      obtain ⟨hg, ht, hlt, hrest⟩ := hsp
      have hne : ¬ (BUTTON_B_PIN = BUTTON_A_PIN) := by decide
      rcases hg with hA | hB
      · have hacc : DEBOUNCE_US ≤ u64_sub e.now s.last_button_a_time := by
          rw [u64_sub_of_le _ _ (by omega) hlt]
          omega
        have hs : handle s e =
            { s with
              last_button_a_time := e.now
              current_digit := Int.tmod (s.current_digit + 1) 10
              display_update := true } := by
          unfold handle
          rw [hA]
          exact gpio_callback_a s e.events e.now hacc
        have hdig : (handle s e).current_digit = next_digit e.gpio s.current_digit := by
          rw [hs]
          simp only [next_digit, hA, if_true]
          exact tmod_ten_of_nonneg _ 1 hd (by decide)
        simp only [digits_after, expected_digits]
        rw [ih (handle s e) e.now (by rw [hdig]; simp only [next_digit, hA, if_true]; omega)
          (by rw [hs]) (by rw [hs]; simp only; omega) hrest, hdig]
      · have hacc : DEBOUNCE_US ≤ u64_sub e.now s.last_button_b_time := by
          rw [u64_sub_of_le _ _ (by omega) hlt]
          omega
        have hs : handle s e =
            { s with
              last_button_b_time := e.now
              current_digit := Int.tmod (s.current_digit + 9) 10
              display_update := true } := by
          unfold handle
          rw [hB]
          exact gpio_callback_b s e.events e.now hacc
        have hdig : (handle s e).current_digit = next_digit e.gpio s.current_digit := by
          rw [hs]
          simp only [next_digit, hB, hne, if_false]
          exact tmod_ten_of_nonneg _ 9 hd (by decide)
        simp only [digits_after, expected_digits]
        rw [ih (handle s e) e.now (by rw [hdig]; simp only [next_digit, hB, hne, if_false]; omega)
          (by rw [hs]; simp only; omega) (by rw [hs]) hrest, hdig]
  refine ⟨main, ?_⟩
  intro h0 hlen hall
  rw [main, expected_digits_all_a _ _ hall, hlen, h0]
  decide

theorem spaced_events_digits_witness :
    digits_after (main_setup boot 1000) ten_presses = [1, 2, 3, 4, 5, 6, 7, 8, 9, 0] :=
  (spaced_events_digits (main_setup boot 1000) 0 ten_presses (by decide) (by decide)
    (by decide) (by decide)).2 (by decide) (by decide) (by decide)

/-- C6, counterexample to the claim as stated: ten presses of button A from
the startup state at 50 ms, 150 ms, ..., 950 ms are each 100 ms apart, yet the
first is discarded (it comes less than 100 ms after the initial timestamp 0)
and the digits after the presses are 0, 1, ..., 9, not 1, 2, ..., 9, 0. -/
theorem ten_presses_first_discarded :
    digits_after (main_setup boot 1000) ten_early_presses
      = [0, 1, 2, 3, 4, 5, 6, 7, 8, 9] ∧
    (handle (main_setup boot 1000)
        { gpio := BUTTON_A_PIN, events := 4, now := 50000 }).current_digit
      ≠ ((main_setup boot 1000).current_digit + 1) % 10 := by
  decide

/-! ## Independence of the two buttons -/

/-- C7: the two buttons debounce independently.  An event on button A leaves
`last_button_b_time` as it was and an event on button B leaves
`last_button_a_time` as it was; whether an event on a button changes the state
(is accepted) is the same in any two states that agree on that button's
timestamp; so an event on button B is accepted or discarded identically
whether or not an event on button A was handled just before it, and the same
with the buttons exchanged. -/
theorem buttons_debounce_independently (s : State) (ea eb ta tb : Nat) :
    (gpio_callback s BUTTON_A_PIN ea ta).last_button_b_time = s.last_button_b_time ∧
    (gpio_callback s BUTTON_B_PIN eb tb).last_button_a_time = s.last_button_a_time ∧
    (∀ s2 : State, s2.last_button_b_time = s.last_button_b_time →
      (gpio_callback s2 BUTTON_B_PIN eb tb ≠ s2 ↔ gpio_callback s BUTTON_B_PIN eb tb ≠ s)) ∧
    (∀ s2 : State, s2.last_button_a_time = s.last_button_a_time →
      (gpio_callback s2 BUTTON_A_PIN ea ta ≠ s2 ↔ gpio_callback s BUTTON_A_PIN ea ta ≠ s)) ∧
    (gpio_callback (gpio_callback s BUTTON_A_PIN ea ta) BUTTON_B_PIN eb tb
        ≠ gpio_callback s BUTTON_A_PIN ea ta ↔
      gpio_callback s BUTTON_B_PIN eb tb ≠ s) ∧
    (gpio_callback (gpio_callback s BUTTON_B_PIN eb tb) BUTTON_A_PIN ea ta
        ≠ gpio_callback s BUTTON_B_PIN eb tb ↔
      gpio_callback s BUTTON_A_PIN ea ta ≠ s) := by
  have hne : ¬ (BUTTON_B_PIN = BUTTON_A_PIN) := by decide
  have hab : (gpio_callback s BUTTON_A_PIN ea ta).last_button_b_time
      = s.last_button_b_time := by
    unfold gpio_callback
    simp only [if_true]
    split <;> rfl
  have hba : (gpio_callback s BUTTON_B_PIN eb tb).last_button_a_time
      = s.last_button_a_time := by
    unfold gpio_callback
    simp only [hne, if_true, if_false]
    split <;> rfl
  have hB : ∀ s2 : State, s2.last_button_b_time = s.last_button_b_time →
      (gpio_callback s2 BUTTON_B_PIN eb tb ≠ s2 ↔ gpio_callback s BUTTON_B_PIN eb tb ≠ s) := by
    intro s2 h2
    rw [gpio_callback_changes_iff, gpio_callback_changes_iff]
    simp only [last_accepted, hne, if_false, h2]
  have hA : ∀ s2 : State, s2.last_button_a_time = s.last_button_a_time →
      (gpio_callback s2 BUTTON_A_PIN ea ta ≠ s2 ↔ gpio_callback s BUTTON_A_PIN ea ta ≠ s) := by
    intro s2 h2
    rw [gpio_callback_changes_iff, gpio_callback_changes_iff]
    simp only [last_accepted, if_true, h2]
  exact ⟨hab, hba, hB, hA, hB _ hab, hA _ hba⟩

/-! ## `draw_digit` outside 0..9 and `npSetLED` -/

/-- C8: for every `n` outside 0..9, `draw_digit(n)` changes nothing: all
entries of `leds` are as before and nothing is put to the strip (the state is
returned before `npClear` and `npWrite`). -/
theorem draw_digit_out_of_range (s : State) (n : Int) (h : n < 0 ∨ 9 < n) :
    (draw_digit s n).leds = s.leds ∧ (draw_digit s n).pio_tx = s.pio_tx ∧
    draw_digit s n = s := by
  have h2 : n < 0 ∨ n > 9 := h
  unfold draw_digit
  rw [if_pos h2]
  exact ⟨rfl, rfl, rfl⟩

theorem draw_digit_out_of_range_witness :
    draw_digit (draw_digit boot 3) (-1) = draw_digit boot 3 ∧
    draw_digit (draw_digit boot 3) 10 = draw_digit boot 3 :=
  ⟨(draw_digit_out_of_range (draw_digit boot 3) (-1) (Or.inl (by decide))).2.2,
   (draw_digit_out_of_range (draw_digit boot 3) 10 (Or.inr (by decide))).2.2⟩

/-- C9: `npSetLED(index, r, g, b)` on a 25-entry buffer: for `index ≥ 25`
nothing changes; for `index` in 0..24 entry `index` becomes
`(R, G, B) = (r, g, b)` and every other entry is as before; in both cases the
buffer still has 25 entries. -/
theorem npSetLED_effect (s : State) (index r g b : Nat) (hlen : s.leds.length = NUM_LEDS) :
    (NUM_LEDS ≤ index → npSetLED s index r g b = s) ∧
    (index < NUM_LEDS →
      (npSetLED s index r g b).leds[index]? = some { G := g, R := r, B := b } ∧
      ∀ j : Nat, j ≠ index → (npSetLED s index r g b).leds[j]? = s.leds[j]?) ∧
    (npSetLED s index r g b).leds.length = NUM_LEDS := by
  refine ⟨?_, ?_, ?_⟩
  · intro h
    unfold npSetLED
    rw [if_neg (by omega)]
  · intro h
    rw [npSetLED_leds s index r g b h]
    refine ⟨?_, ?_⟩
    · rw [List.getElem?_set_self (by omega)]
    · intro j hj
      rw [List.getElem?_set_ne (fun hc => hj hc.symm)]
  · unfold npSetLED
    split
    · simp only [List.length_set]
      exact hlen
    · exact hlen

theorem npSetLED_effect_witness :
    npSetLED boot 25 1 2 3 = boot ∧
    (npSetLED boot 7 1 2 3).leds[7]? = some { G := 2, R := 1, B := 3 } ∧
    (npSetLED boot 7 1 2 3).leds[8]? = boot.leds[8]? ∧
    (npSetLED boot 7 1 2 3).leds.length = NUM_LEDS := by
  have h7 := npSetLED_effect boot 7 1 2 3 (by decide)
  have h25 := npSetLED_effect boot 25 1 2 3 (by decide)
  exact ⟨h25.1 (by decide), (h7.2.1 (by decide)).1, (h7.2.1 (by decide)).2 8 (by decide), h7.2.2⟩

/-! ## The main loop -/

theorem main_setup_leds (now : Nat) :
    (main_setup boot now).leds = (draw_digit boot 0).leds := by
  have h : (main_setup boot now).leds = (main_setup boot 0).leds := rfl
  rw [h]
  decide

/-- C10: with no button event inside the steps considered, the start of `main`
leaves the buffer showing the digit-0 bitmap with `display_update` clear and
`current_digit` 0; one loop iteration with `display_update` set (and the digit
in 0..9, the buffer of 25 entries) leaves the buffer showing `current_digit`,
`display_update` clear and `current_digit` as it was; one loop iteration with
`display_update` clear leaves buffer, digit and flag as they were and puts
nothing to the strip. -/
theorem main_loop_redraws (s : State) (t0 now : Nat) :
    (shows_digit (main_setup boot t0).leds 0 ∧
      (main_setup boot t0).display_update = false ∧
      (main_setup boot t0).current_digit = 0) ∧
    (s.display_update = true → s.leds.length = NUM_LEDS →
        0 ≤ s.current_digit → s.current_digit ≤ 9 →
      shows_digit (main_loop_body s now).leds s.current_digit.toNat ∧
      (main_loop_body s now).display_update = false ∧
      (main_loop_body s now).current_digit = s.current_digit) ∧
    (s.display_update = false →
      (main_loop_body s now).leds = s.leds ∧
      (main_loop_body s now).current_digit = s.current_digit ∧
      (main_loop_body s now).display_update = false ∧
      (main_loop_body s now).pio_tx = s.pio_tx) := by
  have hblink : ∀ st : State,
      (blink_tick st now).leds = st.leds ∧
      (blink_tick st now).current_digit = st.current_digit ∧
      (blink_tick st now).display_update = st.display_update ∧
      (blink_tick st now).pio_tx = st.pio_tx := by
    intro st
    unfold blink_tick
    split <;> exact ⟨rfl, rfl, rfl, rfl⟩
  refine ⟨⟨?_, rfl, ?_⟩, ?_, ?_⟩
  · rw [main_setup_leds]
    decide
  · have h : (main_setup boot t0).current_digit = (main_setup boot 0).current_digit := rfl
    rw [h]
    decide
  · intro hu hlen h0 h9
    obtain ⟨k, hk⟩ := Int.eq_ofNat_of_zero_le h0
    have hk9 : k ≤ 9 := by omega
    have hred : loop_redraw s = { draw_digit s s.current_digit with display_update := false } := by
      unfold loop_redraw
      rw [if_pos hu]
    unfold main_loop_body
    obtain ⟨b1, b2, b3, _⟩ := hblink (loop_redraw s)
    rw [b1, b2, b3, hred]
    refine ⟨?_, rfl, ?_⟩
    · show shows_digit (draw_digit s s.current_digit).leds s.current_digit.toNat
      rw [hk, show ((k : Int)) = Int.ofNat k from rfl, draw_digit_leds s k hk9 hlen]
      interval_cases k <;> decide
    · show (draw_digit s s.current_digit).current_digit = s.current_digit
      rw [draw_digit_fields]
  · intro hu
    have hred : loop_redraw s = s := by
      unfold loop_redraw
      rw [hu]
      rfl
    unfold main_loop_body
    obtain ⟨b1, b2, b3, b4⟩ := hblink (loop_redraw s)
    rw [b1, b2, b3, b4, hred]
    exact ⟨rfl, rfl, hu, rfl⟩

theorem main_loop_redraws_witness :
    shows_digit
      (main_loop_body (gpio_callback (main_setup boot 1000) BUTTON_A_PIN 4 200000) 205000).leds 1 ∧
    (main_loop_body (gpio_callback (main_setup boot 1000) BUTTON_A_PIN 4 200000)
      205000).display_update = false := by
  have h := (main_loop_redraws (gpio_callback (main_setup boot 1000) BUTTON_A_PIN 4 200000)
    0 205000).2.1 (by decide) (by decide) (by decide) (by decide)
  exact ⟨h.1, h.2.1⟩

/-! ## The step system -/

/-- The step system agrees with the loop body: the three main-loop steps in
order, with no button edge between them, make one iteration. -/
theorem run_iteration_eq (s : State) (now : Nat) :
    run { st := s, pc := Pc.top } [Action.redraw, Action.clear, Action.blink now]
      = { st := main_loop_body s now, pc := Pc.top } := by
  unfold main_loop_body loop_redraw
  cases h : s.display_update <;> simp [run, step, h]

/-- C11, the failing run: from startup, button A is accepted, the main loop
draws digit 1, button B is accepted before the main loop clears the flag, and
the flag is cleared.  The main loop is then at the top of an iteration with
`display_update` false and `current_digit` 0, while the buffer shows digit 1
and not digit 0. -/
theorem lost_update_at_top :
    (run (startup 1000) lost_update_run).pc = Pc.top ∧
    (run (startup 1000) lost_update_run).st.display_update = false ∧
    (run (startup 1000) lost_update_run).st.current_digit = 0 ∧
    shows_digit (run (startup 1000) lost_update_run).st.leds 1 ∧
    ¬ shows_digit (run (startup 1000) lost_update_run).st.leds 0 := by
  decide

/-! ## The blink part -/

/-- C12: one blink tick at clock value `now`.  When
`now - last_blink_time >= 100000` the level `led_state` is negated, the new
level is put to the red LED pin and `last_blink_time` becomes `now`; otherwise
nothing changes and nothing is put.  The blink variables after the tick, also
after a whole loop iteration, are the same for every value of `display_update`
and `current_digit`. -/
theorem blink_tick_effect (s : State) (now : Nat) :
    (BLINK_INTERVAL_US ≤ u64_sub now s.last_blink_time →
      (blink_tick s now).led_state = (!s.led_state) ∧
      (blink_tick s now).gpio_out = s.gpio_out ++ [(LED_RED_PIN, !s.led_state)] ∧
      (blink_tick s now).last_blink_time = now) ∧
    (u64_sub now s.last_blink_time < BLINK_INTERVAL_US → blink_tick s now = s) ∧
    (∀ (d : Int) (u : Bool),
      (blink_tick { s with current_digit := d, display_update := u } now).led_state
        = (blink_tick s now).led_state ∧
      (blink_tick { s with current_digit := d, display_update := u } now).gpio_out
        = (blink_tick s now).gpio_out ∧
      (blink_tick { s with current_digit := d, display_update := u } now).last_blink_time
        = (blink_tick s now).last_blink_time ∧
      (main_loop_body { s with current_digit := d, display_update := u } now).led_state
        = (blink_tick s now).led_state ∧
      (main_loop_body { s with current_digit := d, display_update := u } now).gpio_out
        = (blink_tick s now).gpio_out ∧
      (main_loop_body { s with current_digit := d, display_update := u } now).last_blink_time
        = (blink_tick s now).last_blink_time) := by
  refine ⟨?_, ?_, ?_⟩
  · intro h
    have h2 : u64_sub now s.last_blink_time ≥ BLINK_INTERVAL_US := h
    unfold blink_tick
    rw [if_pos h2]
    exact ⟨rfl, rfl, rfl⟩
  · intro h
    have h2 : ¬ (u64_sub now s.last_blink_time ≥ BLINK_INTERVAL_US) := by omega
    unfold blink_tick
    rw [if_neg h2]
  · intro d u
    have hb : ∀ st : State, st.last_blink_time = s.last_blink_time →
        st.led_state = s.led_state → st.gpio_out = s.gpio_out →
        (blink_tick st now).led_state = (blink_tick s now).led_state ∧
        (blink_tick st now).gpio_out = (blink_tick s now).gpio_out ∧
        (blink_tick st now).last_blink_time = (blink_tick s now).last_blink_time := by
      intro st h1 h2 h3
      unfold blink_tick
      rw [h1]
      split
      · simp only [h2, h3, and_self]
      · exact ⟨h2, h3, h1⟩
    have hr : ∀ st : State,
        (loop_redraw st).last_blink_time = st.last_blink_time ∧
        (loop_redraw st).led_state = st.led_state ∧
        (loop_redraw st).gpio_out = st.gpio_out := by
      intro st
      unfold loop_redraw
      split
      · rw [draw_digit_fields]
        exact ⟨rfl, rfl, rfl⟩
      · exact ⟨rfl, rfl, rfl⟩
    obtain ⟨a1, a2, a3⟩ := hb { s with current_digit := d, display_update := u } rfl rfl rfl
    obtain ⟨r1, r2, r3⟩ := hr { s with current_digit := d, display_update := u }
    obtain ⟨b1, b2, b3⟩ := hb (loop_redraw { s with current_digit := d, display_update := u })
      r1 r2 r3
    exact ⟨a1, a2, a3, b1, b2, b3⟩

theorem blink_tick_effect_witness :
    (blink_tick (main_setup boot 1000) 101000).led_state = true ∧
    (blink_tick (main_setup boot 1000) 101000).last_blink_time = 101000 ∧
    blink_tick (main_setup boot 1000) 100999 = main_setup boot 1000 := by
  have h := blink_tick_effect (main_setup boot 1000) 101000
  have h2 := blink_tick_effect (main_setup boot 1000) 100999
  have h3 := h.1 (by decide)
  exact ⟨h3.1, h3.2.2, h2.2.1 (by decide)⟩

/-! ## Auxiliary lemmas: runs and the blink variables -/

theorem gpio_callback_keeps_blink (s : State) (gpio events now : Nat) :
    (gpio_callback s gpio events now).last_blink_time = s.last_blink_time ∧
    (gpio_callback s gpio events now).led_state = s.led_state ∧
    (gpio_callback s gpio events now).gpio_out = s.gpio_out := by
  unfold gpio_callback
  split
  · split <;> exact ⟨rfl, rfl, rfl⟩
  · split
    · split <;> exact ⟨rfl, rfl, rfl⟩
    · exact ⟨rfl, rfl, rfl⟩

/-- A step other than a blink step leaves the blink variables as they are. -/
theorem step_keeps_blink (c : Config) (a : Action) (h : ∀ now, a ≠ Action.blink now) :
    (step c a).st.last_blink_time = c.st.last_blink_time ∧
    (step c a).st.led_state = c.st.led_state ∧
    (step c a).st.gpio_out = c.st.gpio_out := by
  cases a with
  | button e => exact gpio_callback_keeps_blink c.st e.gpio e.events e.now
  | redraw =>
    by_cases hpc : c.pc = Pc.top
    · by_cases hu : c.st.display_update = true
      · have hs : step c Action.redraw =
            { st := draw_digit c.st c.st.current_digit, pc := Pc.drawn } := by
          simp only [step, hpc, hu, if_true]
        rw [hs]
        show (draw_digit c.st c.st.current_digit).last_blink_time = _ ∧
          (draw_digit c.st c.st.current_digit).led_state = _ ∧
          (draw_digit c.st c.st.current_digit).gpio_out = _
        rw [draw_digit_fields]
        exact ⟨rfl, rfl, rfl⟩
      · have hs : step c Action.redraw = { c with pc := Pc.blink } := by
          simp [step, hpc, hu]
        rw [hs]
        exact ⟨rfl, rfl, rfl⟩
    · have hs : step c Action.redraw = c := by
        simp only [step, hpc, if_false]
      rw [hs]
      exact ⟨rfl, rfl, rfl⟩
  | clear =>
    by_cases hpc : c.pc = Pc.drawn
    · have hs : step c Action.clear =
          { st := { c.st with display_update := false }, pc := Pc.blink } := by
        simp only [step, hpc, if_true]
      rw [hs]
      exact ⟨rfl, rfl, rfl⟩
    · have hs : step c Action.clear = c := by
        simp only [step, hpc, if_false]
      rw [hs]
      exact ⟨rfl, rfl, rfl⟩
  | blink now => exact absurd rfl (h now)

theorem toggles_cons_of_ne (c : Config) (a : Action) (as : List Action)
    (h : ∀ now, a ≠ Action.blink now) : toggles c (a :: as) = toggles (step c a) as := by
  cases a with
  | button e => rfl
  | redraw => rfl
  | clear => rfl
  | blink now => exact absurd rfl (h now)

theorem ticks_sorted_cons_of_ne (t0 : Nat) (a : Action) (as : List Action)
    (h : ∀ now, a ≠ Action.blink now) : ticks_sorted t0 (a :: as) = ticks_sorted t0 as := by
  cases a with
  | button e => rfl
  | redraw => rfl
  | clear => rfl
  | blink now => exact absurd rfl (h now)

theorem end_time_cons_of_ne (t0 : Nat) (a : Action) (as : List Action)
    (h : ∀ now, a ≠ Action.blink now) : end_time t0 (a :: as) = end_time t0 as := by
  cases a with
  | button e => rfl
  | redraw => rfl
  | clear => rfl
  | blink now => exact absurd rfl (h now)

/-- What a blink step does to the blink variables and to the list of
toggles, with a clock that has not run backwards or wrapped. -/
theorem toggles_blink_cases (c : Config) (now : Nat) (as : List Action)
    (hl : c.st.last_blink_time ≤ now) (hn : now < 18446744073709551616) :
    (c.pc = Pc.blink ∧ c.st.last_blink_time + BLINK_INTERVAL_US ≤ now ∧
      (step c (Action.blink now)).st.last_blink_time = now ∧
      (step c (Action.blink now)).pc = Pc.top ∧
      toggles c (Action.blink now :: as) = now :: toggles (step c (Action.blink now)) as) ∨
    ((c.pc ≠ Pc.blink ∨ now < c.st.last_blink_time + BLINK_INTERVAL_US) ∧
      (step c (Action.blink now)).st.last_blink_time = c.st.last_blink_time ∧
      (c.pc = Pc.blink → (step c (Action.blink now)).pc = Pc.top) ∧
      toggles c (Action.blink now :: as) = toggles (step c (Action.blink now)) as) := by
  have hsub : u64_sub now c.st.last_blink_time = now - c.st.last_blink_time :=
    u64_sub_of_le _ _ hl hn
  by_cases hpc : c.pc = Pc.blink
  · by_cases hge : u64_sub now c.st.last_blink_time ≥ BLINK_INTERVAL_US
    · left
      have hs : step c (Action.blink now) =
          { st := { c.st with
                    led_state := !c.st.led_state
                    gpio_out := c.st.gpio_out ++ [(LED_RED_PIN, !c.st.led_state)]
                    last_blink_time := now },
            pc := Pc.top } := by
        simp only [step, hpc, if_true, blink_tick, hge]
      refine ⟨hpc, by omega, by rw [hs], by rw [hs], ?_⟩
      have hled : ¬ ((step c (Action.blink now)).st.led_state = c.st.led_state) := by
        rw [hs]
        show ¬ ((!c.st.led_state) = c.st.led_state)
        simp
      simp only [toggles, hled, if_false]
    · right
      have hs : step c (Action.blink now) = { st := c.st, pc := Pc.top } := by
        simp only [step, hpc, if_true, blink_tick, hge, if_false]
      refine ⟨Or.inr (by omega), by rw [hs], fun _ => by rw [hs], ?_⟩
      have hled : (step c (Action.blink now)).st.led_state = c.st.led_state := by rw [hs]
      simp only [toggles, hled, if_true]
  · right
    have hs : step c (Action.blink now) = c := by
      simp only [step, hpc, if_false]
    refine ⟨Or.inl hpc, by rw [hs], fun h => absurd h hpc, ?_⟩
    have hled : (step c (Action.blink now)).st.led_state = c.st.led_state := by rw [hs]
    simp only [toggles, hled, if_true]

theorem toggles_chain (c : Config) (t0 : Nat) (as : List Action)
    (hl : c.st.last_blink_time ≤ t0) (hs : ticks_sorted t0 as) :
    List.Chain (fun a b => a + BLINK_INTERVAL_US ≤ b) c.st.last_blink_time (toggles c as) := by
  induction as generalizing c t0 with
  | nil => exact List.Chain.nil
  | cons a as ih =>
    by_cases hb : ∃ now, a = Action.blink now
    · obtain ⟨now, rfl⟩ := hb
      obtain ⟨h1, h2, h3⟩ := hs
      rcases toggles_blink_cases c now as (by omega) h2 with ⟨_, hge, hlast, _, htog⟩ |
        ⟨_, hlast, _, htog⟩
      · rw [htog]
        refine List.Chain.cons hge ?_
        have := ih (step c (Action.blink now)) now (by omega) h3
        rwa [hlast] at this
      · rw [htog]
        have := ih (step c (Action.blink now)) now (by omega) h3
        rwa [hlast] at this
    · have hne : ∀ now, a ≠ Action.blink now := fun now h => hb ⟨now, h⟩
      rw [toggles_cons_of_ne c a as hne]
      rw [ticks_sorted_cons_of_ne t0 a as hne] at hs
      have := ih (step c a) t0 (by rw [(step_keeps_blink c a hne).1]; exact hl) hs
      rwa [(step_keeps_blink c a hne).1] at this

theorem toggles_length_bound (c : Config) (t0 : Nat) (as : List Action)
    (hl : c.st.last_blink_time ≤ t0) (hs : ticks_sorted t0 as) :
    c.st.last_blink_time + BLINK_INTERVAL_US * (toggles c as).length ≤ end_time t0 as := by
  induction as generalizing c t0 with
  | nil => simpa [toggles, end_time] using hl
  | cons a as ih =>
    by_cases hb : ∃ now, a = Action.blink now
    · obtain ⟨now, rfl⟩ := hb
      obtain ⟨h1, h2, h3⟩ := hs
      have hend : end_time t0 (Action.blink now :: as) = end_time now as := rfl
      rw [hend]
      rcases toggles_blink_cases c now as (by omega) h2 with ⟨_, hge, hlast, _, htog⟩ |
        ⟨_, hlast, _, htog⟩
      · rw [htog]
        have := ih (step c (Action.blink now)) now (by omega) h3
        rw [hlast] at this
        simp only [List.length_cons]
        rw [Nat.mul_succ]
        omega
      · rw [htog]
        have := ih (step c (Action.blink now)) now (by omega) h3
        rw [hlast] at this
        exact this
    · have hne : ∀ now, a ≠ Action.blink now := fun now h => hb ⟨now, h⟩
      rw [toggles_cons_of_ne c a as hne, end_time_cons_of_ne t0 a as hne]
      rw [ticks_sorted_cons_of_ne t0 a as hne] at hs
      have := ih (step c a) t0 (by rw [(step_keeps_blink c a hne).1]; exact hl) hs
      rwa [(step_keeps_blink c a hne).1] at this

/-! ## Auxiliary lemmas: whole iterations -/

theorem iteration_eq (tk : Tick) :
    iteration tk = iteration_head tk ++ [Action.blink tk.now] := rfl

theorem run_append (c : Config) (as bs : List Action) :
    run c (as ++ bs) = run (run c as) bs := by
  unfold run
  exact List.foldl_append _ _ _ _

theorem run_buttons_pc (c : Config) (es : List ButtonEvent) :
    (run c (es.map Action.button)).pc = c.pc := by
  induction es generalizing c with
  | nil => rfl
  | cons e es ih =>
    show (run (step c (Action.button e)) (es.map Action.button)).pc = c.pc
    rw [ih]
    rfl

theorem iteration_head_no_blink (tk : Tick) :
    ∀ a ∈ iteration_head tk, ∀ now, a ≠ Action.blink now := by
  intro a ha now
  simp only [iteration_head, List.mem_append, List.mem_map, List.mem_singleton] at ha
  rcases ha with (((⟨e, _, rfl⟩ | rfl) | ⟨e, _, rfl⟩) | rfl) | ⟨e, _, rfl⟩ <;> simp

/-- The steps of an iteration before the blink step take the main loop from
the top of the iteration to the blink part. -/
theorem iteration_head_pc (c : Config) (tk : Tick) (h : c.pc = Pc.top) :
    (run c (iteration_head tk)).pc = Pc.blink := by
  unfold iteration_head
  rw [run_append, run_append, run_append, run_append, run_buttons_pc]
  have h1 : (run c (tk.before.map Action.button)).pc = Pc.top := by
    rw [run_buttons_pc]
    exact h
  generalize run c (tk.before.map Action.button) = c1 at h1
  have h2 : (run c1 [Action.redraw]).pc = Pc.drawn ∨ (run c1 [Action.redraw]).pc = Pc.blink := by
    show (step c1 Action.redraw).pc = Pc.drawn ∨ (step c1 Action.redraw).pc = Pc.blink
    simp only [step, h1, if_true]
    split
    · exact Or.inl rfl
    · exact Or.inr rfl
  generalize run c1 [Action.redraw] = c2 at h2
  have h3 : (run c2 (tk.between.map Action.button)).pc = Pc.drawn ∨
      (run c2 (tk.between.map Action.button)).pc = Pc.blink := by
    rw [run_buttons_pc]
    exact h2
  generalize run c2 (tk.between.map Action.button) = c3 at h3
  show (step c3 Action.clear).pc = Pc.blink
  rcases h3 with h3 | h3
  · simp only [step, h3, if_true]
  · have hne : ¬ (Pc.blink = Pc.drawn) := by decide
    simp only [step, h3, hne, if_false]

theorem run_no_blink (c : Config) (as : List Action)
    (h : ∀ a ∈ as, ∀ now, a ≠ Action.blink now) :
    (run c as).st.last_blink_time = c.st.last_blink_time := by
  induction as generalizing c with
  | nil => rfl
  | cons a as ih =>
    show (run (step c a) as).st.last_blink_time = c.st.last_blink_time
    rw [ih (step c a) (fun x hx => h x (List.mem_cons_of_mem _ hx)),
      (step_keeps_blink c a (h a (List.mem_cons_self _ _))).1]

theorem toggles_append_no_blink (c : Config) (as bs : List Action)
    (h : ∀ a ∈ as, ∀ now, a ≠ Action.blink now) :
    toggles c (as ++ bs) = toggles (run c as) bs := by
  induction as generalizing c with
  | nil => rfl
  | cons a as ih =>
    rw [List.cons_append, toggles_cons_of_ne c a _ (h a (List.mem_cons_self _ _)),
      ih (step c a) (fun x hx => h x (List.mem_cons_of_mem _ hx))]
    rfl

theorem ticks_sorted_append_no_blink (t0 : Nat) (as bs : List Action)
    (h : ∀ a ∈ as, ∀ now, a ≠ Action.blink now) :
    ticks_sorted t0 (as ++ bs) = ticks_sorted t0 bs := by
  induction as with
  | nil => rfl
  | cons a as ih =>
    rw [List.cons_append, ticks_sorted_cons_of_ne t0 a _ (h a (List.mem_cons_self _ _)),
      ih (fun x hx => h x (List.mem_cons_of_mem _ hx))]

theorem end_time_append_no_blink (t0 : Nat) (as bs : List Action)
    (h : ∀ a ∈ as, ∀ now, a ≠ Action.blink now) :
    end_time t0 (as ++ bs) = end_time t0 bs := by
  induction as with
  | nil => rfl
  | cons a as ih =>
    rw [List.cons_append, end_time_cons_of_ne t0 a _ (h a (List.mem_cons_self _ _)),
      ih (fun x hx => h x (List.mem_cons_of_mem _ hx))]

theorem iterations_cons (tk : Tick) (tks : List Tick) :
    iterations (tk :: tks) = iteration_head tk ++ (Action.blink tk.now :: iterations tks) := by
  show iteration tk ++ iterations tks = _
  rw [iteration_eq, List.append_assoc]
  rfl

theorem end_time_every_slice (t0 : Nat) (tks : List Tick) (h : every_slice t0 tks) :
    end_time t0 (iterations tks) = t0 + 10000 * tks.length := by
  induction tks generalizing t0 with
  | nil => rfl
  | cons tk tks ih =>
    obtain ⟨h1, h2⟩ := h
    rw [iterations_cons, end_time_append_no_blink _ _ _ (iteration_head_no_blink tk)]
    show end_time tk.now (iterations tks) = _
    rw [ih tk.now h2, h1, List.length_cons]
    omega

/-- With iterations exactly 10 ms apart, `j` of them since the last toggle,
the indicator toggles at every tenth iteration. -/
theorem toggles_every_slice (tks : List Tick) (c : Config) (j : Nat)
    (hpc : c.pc = Pc.top) (hj : j < 10)
    (hsl : every_slice (c.st.last_blink_time + 10000 * j) tks)
    (hs : ticks_sorted (c.st.last_blink_time + 10000 * j) (iterations tks)) :
    (toggles c (iterations tks)).length = (j + tks.length) / 10 := by
  induction tks generalizing c j with
  | nil =>
    show 0 = (j + 0) / 10
    omega
  | cons tk tks ih =>
    obtain ⟨h1, h2⟩ := hsl
    rw [iterations_cons, ticks_sorted_append_no_blink _ _ _ (iteration_head_no_blink tk)] at hs
    obtain ⟨_, hlt, hrest⟩ := hs
    rw [iterations_cons, toggles_append_no_blink _ _ _ (iteration_head_no_blink tk)]
    have hlast := run_no_blink c (iteration_head tk) (iteration_head_no_blink tk)
    have hpc1 := iteration_head_pc c tk hpc
    generalize run c (iteration_head tk) = c1 at hlast hpc1
    rcases toggles_blink_cases c1 tk.now (iterations tks) (by omega) hlt with
      ⟨_, hge, hl2, hpc2, htog⟩ | ⟨hno, hl2, hpc2, htog⟩
    · rw [htog, List.length_cons]
      have hj9 : j = 9 := by unfold BLINK_INTERVAL_US at hge; omega
      have e0 : (step c1 (Action.blink tk.now)).st.last_blink_time + 10000 * 0 = tk.now := by
        rw [hl2]
        omega
      rw [ih (step c1 (Action.blink tk.now)) 0 hpc2 (by decide) (by rw [e0]; exact h2)
        (by rw [e0]; exact hrest), List.length_cons]
      omega
    · have hlt2 : tk.now < c1.st.last_blink_time + BLINK_INTERVAL_US := by
        rcases hno with hno | hno
        · exact absurd hpc1 hno
        · exact hno
      have hj9 : j + 1 < 10 := by unfold BLINK_INTERVAL_US at hlt2; omega
      have e0 : (step c1 (Action.blink tk.now)).st.last_blink_time + 10000 * (j + 1)
          = tk.now := by
        rw [hl2]
        omega
      rw [htog, ih (step c1 (Action.blink tk.now)) (j + 1) (hpc2 hpc1) hj9
        (by rw [e0]; exact h2) (by rw [e0]; exact hrest), List.length_cons]
      omega

/-! ## Blink cadence -/

/-- C13 (as amended): for every run whose blink steps have clock values that
do not decrease from `t0 = last_blink_time` (and stay below `2^64`), whatever
button edges and redraws happen in it, the number of toggles so far is at most
`floor((t - t0) / 100 ms)`, `t` being the clock value of the last tick; and it
is equal to `floor((t - t0) / 100 ms)` when the run consists of whole
iterations whose ticks are exactly 10 ms apart. -/
theorem toggle_count_bound (c : Config) (as : List Action)
    (h : ticks_sorted c.st.last_blink_time as) :
    (toggles c as).length
      ≤ (end_time c.st.last_blink_time as - c.st.last_blink_time) / BLINK_INTERVAL_US ∧
    (∀ tks : List Tick, as = iterations tks → c.pc = Pc.top →
      every_slice c.st.last_blink_time tks →
      (toggles c as).length
        = (end_time c.st.last_blink_time as - c.st.last_blink_time) / BLINK_INTERVAL_US) := by
  refine ⟨?_, ?_⟩
  · have hb := toggles_length_bound c c.st.last_blink_time as (le_refl _) h
    unfold BLINK_INTERVAL_US at hb ⊢
    omega
  · intro tks has hpc hsl
    subst has
    have e0 : c.st.last_blink_time + 10000 * 0 = c.st.last_blink_time := by omega
    rw [toggles_every_slice tks c 0 hpc (by decide) (by rw [e0]; exact hsl)
      (by rw [e0]; exact h), end_time_every_slice _ tks hsl]
    unfold BLINK_INTERVAL_US
    omega

theorem toggle_count_bound_witness :
    (toggles (startup 1000) (iterations regular_ticks)).length
      = (end_time (startup 1000).st.last_blink_time (iterations regular_ticks)
          - (startup 1000).st.last_blink_time) / BLINK_INTERVAL_US :=
  (toggle_count_bound (startup 1000) (iterations regular_ticks) (by decide)).2
    regular_ticks rfl rfl (by decide)

/-- C13, counterexample to the claim as stated: from startup with
`last_blink_time` = 1000, nineteen iterations 11 ms apart (10 ms of sleep and
1 ms of work) end with the tick at 210000; the indicator has toggled once, at
111000, while `floor((210000 - 1000) / 100000)` is 2. -/
theorem toggles_fall_behind :
    (startup 1000).st.last_blink_time = 1000 ∧
    ticks_sorted 1000 slow_ticks ∧
    end_time 1000 slow_ticks = 210000 ∧
    toggles (startup 1000) slow_ticks = [111000] ∧
    (toggles (startup 1000) slow_ticks).length ≠ (210000 - 1000) / BLINK_INTERVAL_US := by
  decide

/-- C20: in every run whose blink steps have clock values that do not decrease
from the initial `last_blink_time` (and stay below `2^64`), the first toggle
comes at least 100000 microseconds after the initial `last_blink_time` and
every toggle at least 100000 microseconds after the one before it; and
`led_state` changes at blink steps only. -/
theorem toggles_apart (c : Config) (as : List Action)
    (h : ticks_sorted c.st.last_blink_time as) :
    List.Chain (fun a b => a + BLINK_INTERVAL_US ≤ b) c.st.last_blink_time (toggles c as) ∧
    (∀ a : Action, (∀ now, a ≠ Action.blink now) →
      (step c a).st.led_state = c.st.led_state) :=
  ⟨toggles_chain c c.st.last_blink_time as (le_refl _) h,
    fun a ha => (step_keeps_blink c a ha).2.1⟩

theorem toggles_apart_witness :
    List.Chain (fun a b => a + BLINK_INTERVAL_US ≤ b) (startup 1000).st.last_blink_time
      (toggles (startup 1000) (iterations regular_ticks)) ∧
    toggles (startup 1000) (iterations regular_ticks) = [101000, 201000] :=
  ⟨(toggles_apart (startup 1000) (iterations regular_ticks) (by decide)).1, by decide⟩

/-! ## `npWrite`, `npClear`, `getIndex` -/

theorem npWrite_loop (s : State) (k : Nat) :
    (List.range k).foldl
      (fun (st : State) (i : Nat) =>
        { st with pio_tx := st.pio_tx ++ [(led_at st i).G, (led_at st i).R, (led_at st i).B] })
      s
    = { s with pio_tx := s.pio_tx ++
          ((List.range k).flatMap
            (fun i => [(led_at s i).G, (led_at s i).R, (led_at s i).B])) } := by
  induction k with
  | zero => simp
  | succ k ih =>
    rw [List.range_succ, List.foldl_append, ih]
    simp [led_at, List.append_assoc]

theorem triples_length (f : Nat → List Nat) (hf : ∀ i, (f i).length = 3) (k : Nat) :
    ((List.range k).flatMap f).length = 3 * k := by
  induction k with
  | zero => rfl
  | succ k ih =>
    rw [List.range_succ, List.flatMap_append, List.length_append, ih]
    simp [hf]
    omega

theorem triples_getElem (f : Nat → List Nat) (hf : ∀ i, (f i).length = 3) (k i j : Nat)
    (hi : i < k) (hj : j < 3) :
    ((List.range k).flatMap f)[3 * i + j]? = (f i)[j]? := by
  induction k with
  | zero => omega
  | succ k ih =>
    rw [List.range_succ, List.flatMap_append]
    by_cases hik : i < k
    · rw [List.getElem?_append_left (by rw [triples_length f hf k]; omega)]
      exact ih hik
    · have hk : i = k := by omega
      subst hk
      rw [List.getElem?_append_right (by rw [triples_length f hf i]; omega),
        triples_length f hf i]
      simp only [List.flatMap_cons, List.flatMap_nil, List.append_nil]
      congr 1
      omega

/-- C14: `npWrite` puts exactly 75 values to the strip, for each `i` from 0 to
24 in increasing order the values `leds[i].G`, `leds[i].R`, `leds[i].B` at
positions `3i`, `3i+1`, `3i+2`, and leaves the buffer, and every other
variable, as it was. -/
theorem npWrite_emits (s : State) :
    ∃ out : List Nat,
      npWrite s = { s with pio_tx := s.pio_tx ++ out } ∧
      out.length = 75 ∧
      (∀ (i : Nat) (p : pixel_t), i < NUM_LEDS → s.leds[i]? = some p →
        out[3 * i]? = some p.G ∧ out[3 * i + 1]? = some p.R ∧ out[3 * i + 2]? = some p.B) ∧
      (npWrite s).leds = s.leds := by
  have hf : ∀ i, ([(led_at s i).G, (led_at s i).R, (led_at s i).B] : List Nat).length = 3 :=
    fun _ => rfl
  have hw : npWrite s = { s with pio_tx := s.pio_tx ++
      ((List.range NUM_LEDS).flatMap
        (fun i => [(led_at s i).G, (led_at s i).R, (led_at s i).B])) } :=
    npWrite_loop s NUM_LEDS
  refine ⟨_, hw, triples_length _ hf NUM_LEDS, ?_, by rw [hw]⟩
  intro i p hi hp
  have hled : led_at s i = p := by
    unfold led_at
    rw [List.getD_eq_getElem?_getD, hp]
    rfl
  have h0 := triples_getElem _ hf NUM_LEDS i 0 hi (by decide)
  have h1 := triples_getElem _ hf NUM_LEDS i 1 hi (by decide)
  have h2 := triples_getElem _ hf NUM_LEDS i 2 hi (by decide)
  simp only [hled, Nat.add_zero] at h0 h1 h2
  exact ⟨h0, h1, h2⟩

/-- C16: after `npClear` every one of the 25 entries of `leds` is
`(R, G, B) = (0, 0, 0)`, whatever the buffer held. -/
theorem npClear_all_black (s : State) (hlen : s.leds.length = NUM_LEDS) :
    (npClear s).leds = List.replicate NUM_LEDS { G := 0, R := 0, B := 0 } ∧
    (npClear s).leds.length = NUM_LEDS ∧
    (∀ i : Nat, i < NUM_LEDS → (npClear s).leds[i]? = some { G := 0, R := 0, B := 0 }) := by
  have h := npClear_leds s hlen
  refine ⟨h, by rw [h]; simp, ?_⟩
  intro i hi
  rw [h, List.getElem?_replicate]
  simp [hi, black]

theorem npClear_all_black_witness :
    (npClear (draw_digit boot 8)).leds = List.replicate NUM_LEDS { G := 0, R := 0, B := 0 } :=
  (npClear_all_black (draw_digit boot 8) (by decide)).1

theorem tmod_two_eq_zero_iff (y : Int) : Int.tmod y 2 = 0 ↔ y % 2 = 0 := by
  constructor
  · intro h
    exact Int.emod_eq_zero_of_dvd (Int.dvd_of_tmod_eq_zero h)
  · intro h
    exact Int.tmod_eq_zero_of_dvd (Int.dvd_of_emod_eq_zero h)

/-- C17: for all integers `x` and `y`, `getIndex(x, y)` is `24 - (y*5 + x)`
when `y` is even and `24 - (y*5 + (4 - x))` when `y` is odd, a negative odd
`y` (for which the C remainder `y % 2` is -1) included; in particular
`getIndex(0,0)` = 24, `getIndex(4,0)` = 20, `getIndex(0,1)` = 15 and
`getIndex(4,4)` = 0. -/
theorem getIndex_formula (x y : Int) :
    (Even y → getIndex x y = 24 - (y * 5 + x)) ∧
    (Odd y → getIndex x y = 24 - (y * 5 + (4 - x))) ∧
    getIndex 0 0 = 24 ∧ getIndex 4 0 = 20 ∧ getIndex 0 1 = 15 ∧ getIndex 4 4 = 0 ∧
    getIndex 2 (-3) = 24 - ((-3) * 5 + (4 - 2)) := by
  refine ⟨?_, ?_, by decide, by decide, by decide, by decide, by decide⟩
  · intro he
    have h : Int.tmod y 2 = 0 := (tmod_two_eq_zero_iff y).mpr (Int.even_iff.mp he)
    unfold getIndex
    rw [if_pos h]
  · intro ho
    have h : ¬ (Int.tmod y 2 = 0) := by
      intro hc
      have h1 := (tmod_two_eq_zero_iff y).mp hc
      have h2 := Int.odd_iff.mp ho
      omega
    unfold getIndex
    rw [if_neg h]

/-! ## The digit stays in 0..9 -/

theorem gpio_callback_digit_range (s : State) (gpio events now : Nat)
    (h0 : 0 ≤ s.current_digit) (h9 : s.current_digit ≤ 9) :
    0 ≤ (gpio_callback s gpio events now).current_digit ∧
    (gpio_callback s gpio events now).current_digit ≤ 9 := by
  have e1 := tmod_ten_of_nonneg s.current_digit 1 h0 (by decide)
  have e9 := tmod_ten_of_nonneg s.current_digit 9 h0 (by decide)
  unfold gpio_callback
  split
  · split
    · exact ⟨h0, h9⟩
    · show 0 ≤ Int.tmod (s.current_digit + 1) 10 ∧ Int.tmod (s.current_digit + 1) 10 ≤ 9
      rw [e1]
      omega
  · split
    · split
      · exact ⟨h0, h9⟩
      · show 0 ≤ Int.tmod (s.current_digit + 9) 10 ∧ Int.tmod (s.current_digit + 9) 10 ≤ 9
        rw [e9]
        omega
    · exact ⟨h0, h9⟩

theorem draw_digit_current_digit (s : State) (n : Int) :
    (draw_digit s n).current_digit = s.current_digit := by
  rw [draw_digit_fields]

theorem blink_tick_current_digit (s : State) (now : Nat) :
    (blink_tick s now).current_digit = s.current_digit := by
  unfold blink_tick
  split <;> rfl

theorem loop_redraw_current_digit (s : State) :
    (loop_redraw s).current_digit = s.current_digit := by
  unfold loop_redraw
  split
  · exact draw_digit_current_digit s s.current_digit
  · rfl

theorem step_digit_range (c : Config) (a : Action)
    (h0 : 0 ≤ c.st.current_digit) (h9 : c.st.current_digit ≤ 9) :
    0 ≤ (step c a).st.current_digit ∧ (step c a).st.current_digit ≤ 9 := by
  cases a with
  | button e => exact gpio_callback_digit_range c.st e.gpio e.events e.now h0 h9
  | redraw =>
    by_cases hpc : c.pc = Pc.top
    · by_cases hu : c.st.display_update = true
      · have hs : step c Action.redraw =
            { st := draw_digit c.st c.st.current_digit, pc := Pc.drawn } := by
          simp only [step, hpc, hu, if_true]
        rw [hs]
        show 0 ≤ (draw_digit c.st c.st.current_digit).current_digit ∧
          (draw_digit c.st c.st.current_digit).current_digit ≤ 9
        rw [draw_digit_current_digit]
        exact ⟨h0, h9⟩
      · have hs : step c Action.redraw = { c with pc := Pc.blink } := by
          simp [step, hpc, hu]
        rw [hs]
        exact ⟨h0, h9⟩
    · have hs : step c Action.redraw = c := by
        simp only [step, hpc, if_false]
      rw [hs]
      exact ⟨h0, h9⟩
  | clear =>
    by_cases hpc : c.pc = Pc.drawn
    · have hs : step c Action.clear =
          { st := { c.st with display_update := false }, pc := Pc.blink } := by
        simp only [step, hpc, if_true]
      rw [hs]
      exact ⟨h0, h9⟩
    · have hs : step c Action.clear = c := by
        simp only [step, hpc, if_false]
      rw [hs]
      exact ⟨h0, h9⟩
  | blink now =>
    by_cases hpc : c.pc = Pc.blink
    · have hs : step c (Action.blink now) = { st := blink_tick c.st now, pc := Pc.top } := by
        simp only [step, hpc, if_true]
      rw [hs]
      show 0 ≤ (blink_tick c.st now).current_digit ∧ (blink_tick c.st now).current_digit ≤ 9
      rw [blink_tick_current_digit]
      exact ⟨h0, h9⟩
    · have hs : step c (Action.blink now) = c := by
        simp only [step, hpc, if_false]
      rw [hs]
      exact ⟨h0, h9⟩

theorem run_digit_range (c : Config) (as : List Action)
    (h0 : 0 ≤ c.st.current_digit) (h9 : c.st.current_digit ≤ 9) :
    0 ≤ (run c as).st.current_digit ∧ (run c as).st.current_digit ≤ 9 := by
  induction as generalizing c with
  | nil => exact ⟨h0, h9⟩
  | cons a as ih =>
    obtain ⟨g0, g9⟩ := step_digit_range c a h0 h9
    exact ih (step c a) g0 g9

theorem main_setup_button_fields (t0 : Nat) :
    (main_setup boot t0).current_digit = 0 ∧
    (main_setup boot t0).last_button_a_time = 0 ∧
    (main_setup boot t0).last_button_b_time = 0 := by
  have h1 : (main_setup boot t0).current_digit = (main_setup boot 0).current_digit := rfl
  have h2 : (main_setup boot t0).last_button_a_time
      = (main_setup boot 0).last_button_a_time := rfl
  have h3 : (main_setup boot t0).last_button_b_time
      = (main_setup boot 0).last_button_b_time := rfl
  rw [h1, h2, h3]
  decide

/-- C15: in every state reached from startup by any sequence of button events
(any pin, any clock values) and main-loop steps, `current_digit` is in 0..9;
`gpio_callback` keeps a digit of 0..9 in 0..9, and `draw_digit`, the redraw
part, the blink part and the whole loop body leave `current_digit` as it is. -/
theorem current_digit_in_range (t0 : Nat) (as : List Action) (s : State)
    (gpio events now : Nat) (n : Int) :
    (0 ≤ (run (startup t0) as).st.current_digit ∧
      (run (startup t0) as).st.current_digit ≤ 9) ∧
    (0 ≤ s.current_digit → s.current_digit ≤ 9 →
      0 ≤ (gpio_callback s gpio events now).current_digit ∧
      (gpio_callback s gpio events now).current_digit ≤ 9) ∧
    (draw_digit s n).current_digit = s.current_digit ∧
    (loop_redraw s).current_digit = s.current_digit ∧
    (blink_tick s now).current_digit = s.current_digit ∧
    (main_loop_body s now).current_digit = s.current_digit := by
  refine ⟨?_, gpio_callback_digit_range s gpio events now, draw_digit_current_digit s n,
    loop_redraw_current_digit s, blink_tick_current_digit s now, ?_⟩
  · have hd : (startup t0).st.current_digit = 0 := (main_setup_button_fields t0).1
    exact run_digit_range (startup t0) as (by rw [hd]) (by rw [hd]; decide)
  · unfold main_loop_body
    rw [blink_tick_current_digit, loop_redraw_current_digit]

/-! ## Distinct digits give distinct frames -/

set_option maxRecDepth 100000 in
theorem frames_distinct :
    ∀ k l : Fin 10, k ≠ l →
      ∃ i : Fin 25, (draw_cells (npClear boot) k).leds[(i : Nat)]?
        ≠ (draw_cells (npClear boot) l).leds[(i : Nat)]? := by
  decide

/-- C18: for two different digits `m`, `n` of 0..9, the buffers left by
`draw_digit(m)` and `draw_digit(n)`, from any 25-entry buffers, differ in at
least one of the 25 entries. -/
theorem draw_digit_injective (s1 s2 : State) (m n : Int)
    (hm0 : 0 ≤ m) (hm9 : m ≤ 9) (hn0 : 0 ≤ n) (hn9 : n ≤ 9)
    (h1 : s1.leds.length = NUM_LEDS) (h2 : s2.leds.length = NUM_LEDS) (hne : m ≠ n) :
    (∃ i : Nat, i < NUM_LEDS ∧ (draw_digit s1 m).leds[i]? ≠ (draw_digit s2 n).leds[i]?) ∧
    (draw_digit s1 m).leds ≠ (draw_digit s2 n).leds := by
  obtain ⟨k, rfl⟩ := Int.eq_ofNat_of_zero_le hm0
  obtain ⟨l, rfl⟩ := Int.eq_ofNat_of_zero_le hn0
  have hk : k < 10 := by omega
  have hl : l < 10 := by omega
  have hkl : (⟨k, hk⟩ : Fin 10) ≠ ⟨l, hl⟩ := by
    intro hc
    have := congrArg Fin.val hc
    simp only at this
    exact hne (by rw [this])
  obtain ⟨i, hi⟩ := frames_distinct ⟨k, hk⟩ ⟨l, hl⟩ hkl
  have e1 := draw_digit_leds s1 k (by omega) h1
  have e2 := draw_digit_leds s2 l (by omega) h2
  have e1b : (draw_digit s1 (k : Int)).leds = (draw_cells (npClear boot) k).leds := e1
  have e2b : (draw_digit s2 (l : Int)).leds = (draw_cells (npClear boot) l).leds := e2
  rw [e1b, e2b]
  refine ⟨⟨i, i.isLt, hi⟩, ?_⟩
  intro hc
  exact hi (by rw [hc])

theorem draw_digit_injective_witness :
    ∃ i : Nat, i < NUM_LEDS ∧
      (draw_digit boot 8).leds[i]? ≠ (draw_digit (draw_digit boot 8) 9).leds[i]? :=
  (draw_digit_injective boot (draw_digit boot 8) 8 9 (by decide) (by decide) (by decide)
    (by decide) (by decide) (by decide) (by decide)).1

/-! ## The first press after boot -/

theorem first_press_of_zero (s : State) (gpio events now : Nat)
    (ha : s.last_button_a_time = 0) (hb : s.last_button_b_time = 0)
    (hg : gpio = BUTTON_A_PIN ∨ gpio = BUTTON_B_PIN) (hn : now < 18446744073709551616) :
    (gpio_callback s gpio events now ≠ s ↔ DEBOUNCE_US ≤ now) ∧
    (DEBOUNCE_US ≤ now →
      last_accepted (gpio_callback s gpio events now) gpio = now ∧
      (gpio_callback s gpio events now).display_update = true) ∧
    (now < DEBOUNCE_US → gpio_callback s gpio events now = s) := by
  have hlast : last_accepted s gpio = 0 := by
    unfold last_accepted
    split
    · exact ha
    · exact hb
  have hsub : u64_sub now (last_accepted s gpio) = now := by
    rw [hlast, u64_sub_of_le now 0 (by omega) hn]
    omega
  have hne : ¬ (BUTTON_B_PIN = BUTTON_A_PIN) := by decide
  refine ⟨?_, ?_, ?_⟩
  · rw [gpio_callback_changes_iff, hsub]
    exact ⟨fun h => h.2, fun h => ⟨hg, h⟩⟩
  · intro hge
    rcases hg with hA | hB
    · subst hA
      have hacc : DEBOUNCE_US ≤ u64_sub now s.last_button_a_time := by
        simp only [last_accepted, if_true] at hsub
        omega
      rw [gpio_callback_a _ events now hacc]
      exact ⟨rfl, rfl⟩
    · subst hB
      have hacc : DEBOUNCE_US ≤ u64_sub now s.last_button_b_time := by
        simp only [last_accepted, hne, if_false] at hsub
        omega
      rw [gpio_callback_b _ events now hacc]
      simp only [last_accepted, hne, if_false, and_self]
  · intro hlt
    exact gpio_callback_same _ gpio events now (by rw [hsub]; exact hlt)

/-- C19: both debounce timestamps are 0 when `main` enters the loop, so the
first press of a button, at clock value `now` (microseconds since boot, below
`2^64`), is accepted exactly when `now >= 100000`: then the button's timestamp
becomes `now` and `display_update` is set; a press before 100 ms leaves the
whole state, so digit, flag and timestamps, as it was. -/
theorem first_press_after_boot (t0 gpio events now : Nat)
    (hg : gpio = BUTTON_A_PIN ∨ gpio = BUTTON_B_PIN) (hn : now < 18446744073709551616) :
    ((main_setup boot t0).last_button_a_time = 0 ∧
      (main_setup boot t0).last_button_b_time = 0) ∧
    (gpio_callback (main_setup boot t0) gpio events now ≠ main_setup boot t0
      ↔ DEBOUNCE_US ≤ now) ∧
    (DEBOUNCE_US ≤ now →
      last_accepted (gpio_callback (main_setup boot t0) gpio events now) gpio = now ∧
      (gpio_callback (main_setup boot t0) gpio events now).display_update = true) ∧
    (now < DEBOUNCE_US →
      gpio_callback (main_setup boot t0) gpio events now = main_setup boot t0) := by
  obtain ⟨_, ha, hb⟩ := main_setup_button_fields t0
  exact ⟨⟨ha, hb⟩, first_press_of_zero (main_setup boot t0) gpio events now ha hb hg hn⟩

theorem first_press_after_boot_witness :
    gpio_callback (main_setup boot 1000) BUTTON_A_PIN 4 99999 = main_setup boot 1000 ∧
    gpio_callback (main_setup boot 1000) BUTTON_A_PIN 4 100000 ≠ main_setup boot 1000 := by
  have h := first_press_after_boot 1000 BUTTON_A_PIN 4 99999 (Or.inl rfl) (by decide)
  have h2 := first_press_after_boot 1000 BUTTON_A_PIN 4 100000 (Or.inl rfl) (by decide)
  exact ⟨h.2.2.2 (by decide), h2.2.1.mpr (by decide)⟩

end MatrizRgb
